import Mathlib

/-!
# Geometric optics engine of Node-Weft-Example: embedding and properties

Sources embedded: `Example1/src/RayOptics.h`, `Example1/src/RayOptics.cpp`,
`Example1/src/OpticsNode.cpp`.

Numbers: the C++ `double` values are read as elements of a linearly ordered
field `K` (exact arithmetic), and `std::sqrt` is a function argument
`sqrt : K → K`.  Theorems that depend on what a square root is carry the
hypothesis `IsSqrt sqrt`; the purely structural ones hold for every `sqrt`.
The literal `0.0001` is the field element `1 / 10000`.  Division is the
field's division, so a theorem on a path that divides by an index assumes that
index non-zero (`refractDivisorOk`, `callsDivisorOk`, or positive indices).
In the colour code `std::pow` is a function argument `pow : K → K → K`
(assumption `PowUnit` where a bound on it is used) and `static_cast<uint8_t>`
of a clamped value is the natural-number floor.

Mutation: a C++ function `bool f(Ray& ray, ...)` becomes a Lean function
returning the pair (returned flag, ray after the call).
-/

namespace NodeWeft

/-- Value type `NodeWeft::Vec2` (two components `x`, `y`). -/
structure Vec2 (K : Type) where
  x : K
  y : K

variable {K : Type} [LinearOrderedField K]

/-- Modelled from the spec: `Vec2 operator+` of the missing header
`mathStructure.h` (2D vector addition). -/
def Vec2.add (a b : Vec2 K) : Vec2 K := ⟨a.x + b.x, a.y + b.y⟩

/-- Modelled from the spec: `Vec2 operator-` (binary) of the missing header
`mathStructure.h` (2D vector subtraction). -/
def Vec2.sub (a b : Vec2 K) : Vec2 K := ⟨a.x - b.x, a.y - b.y⟩

/-- Modelled from the spec: `Vec2 operator-` (unary) of the missing header
`mathStructure.h` (negation). -/
def Vec2.neg (a : Vec2 K) : Vec2 K := ⟨-a.x, -a.y⟩

/-- Modelled from the spec: `Vec2 operator*(double)` of the missing header
`mathStructure.h` (scaling by a scalar). -/
def Vec2.smul (a : Vec2 K) (t : K) : Vec2 K := ⟨a.x * t, a.y * t⟩

/-- Modelled from the spec: `NodeWeft::dot` of the missing header
`mathStructure.h` (dot product). -/
def dot (a b : Vec2 K) : K := a.x * b.x + a.y * b.y

/-- Modelled from the spec: `NodeWeft::length` of the missing header
`mathStructure.h` (Euclidean length, the square root of `dot v v`). -/
def length (sqrt : K → K) (v : Vec2 K) : K := sqrt (dot v v)

/-- Modelled from the spec: `NodeWeft::normalize` of the missing header
`mathStructure.h` (the vector divided by its length).  On the zero vector the
field convention `x / 0 = 0` applies; no theorem below relies on that case. -/
def normalize (sqrt : K → K) (v : Vec2 K) : Vec2 K :=
  ⟨v.x / length sqrt v, v.y / length sqrt v⟩

/-- The 2D scalar cross product `a.x * b.y - a.y * b.x` (used to state Snell's
law; it is the sine of the angle between two unit vectors). -/
def cross (a b : Vec2 K) : K := a.x * b.y - a.y * b.x

/-- Modelled from the spec: `NodeWeft::tRGB` of the missing header
`mathStructure.h` (three 8-bit channels; a channel is a natural number, and
every value stored below is at most 255). -/
structure tRGB where
  r : Nat
  g : Nat
  b : Nat

/-- What the theorems assume of `std::sqrt`: on non-negative input it returns
the non-negative number whose square is the input. -/
def IsSqrt (sqrt : K → K) : Prop :=
  ∀ x : K, 0 ≤ x → 0 ≤ sqrt x ∧ sqrt x * sqrt x = x

end NodeWeft

namespace Optics

open NodeWeft

/-- The struct `Optics::RayHit`. -/
structure RayHit (K : Type) where
  point : Vec2 K
  normal : Vec2 K
  distance : K
  refractiveIndexBefore : K
  refractiveIndexAfter : K

/-- The struct `Optics::Ray` (data members only). -/
structure Ray (K : Type) where
  path : List (Vec2 K)
  direction : Vec2 K
  wavelength : K
  intensity : K
  hits : List (RayHit K)

/-- The struct `Optics::SphereLens` (data members only). -/
structure SphereLens (K : Type) where
  center : Vec2 K
  radius : K
  refractiveIndex : K
  isEntrance : Bool
  dispersiveCoefficient : K

variable {K : Type} [LinearOrderedField K]

/-- The default constructor `Ray()`: direction (0,1), wavelength 550,
intensity 1, path holding the single vertex (0,0). -/
def Ray.default : Ray K :=
  { path := [⟨0, 0⟩], direction := ⟨0, 1⟩, wavelength := 550, intensity := 1, hits := [] }

/-- The constructor `Ray(orig, dir, wl, intens)`: the direction is stored
normalized and the path starts with `orig`. -/
def Ray.new (sqrt : K → K) (orig dir : Vec2 K) (wl intens : K) : Ray K :=
  { path := [orig], direction := normalize sqrt dir, wavelength := wl,
    intensity := intens, hits := [] }

/-- The method `Ray::getOrigin`: last path vertex, (0,0) for an empty path. -/
def Ray.getOrigin (ray : Ray K) : Vec2 K :=
  match ray.path.getLast? with
  | none => ⟨0, 0⟩
  | some p => p

/-- The method `Ray::pointAt`: `getOrigin() + direction * t`. -/
def Ray.pointAt (ray : Ray K) (t : K) : Vec2 K :=
  ray.getOrigin.add (ray.direction.smul t)

/-- The method `Ray::addHit`: a distance below 0.0001 is replaced by the
length of `hitPoint - getOrigin()`, then the point is pushed on the path and
the hit record on the hit history. -/
def Ray.addHit (sqrt : K → K) (ray : Ray K) (hitPoint normal : Vec2 K)
    (nBefore nAfter distance : K) : Ray K :=
  let distance1 :=
    if distance < 1 / 10000 then length sqrt (hitPoint.sub ray.getOrigin) else distance
  { ray with
    path := ray.path ++ [hitPoint]
    hits := ray.hits ++ [⟨hitPoint, normal, distance1, nBefore, nAfter⟩] }

/-- The method `Ray::getLastHit`: the last hit record, or none (the null
pointer) when the hit history is empty. -/
def Ray.getLastHit (ray : Ray K) : Option (RayHit K) :=
  ray.hits.getLast?

/-- The method `SphereLens::getNormalAt`: the normalized vector from
`center + (radius, 0)` to the point, negated unless `radius > 0`. -/
def SphereLens.getNormalAt (sqrt : K → K) (s : SphereLens K) (point : Vec2 K) : Vec2 K :=
  let normal := normalize sqrt (point.sub (s.center.add ⟨s.radius, 0⟩))
  if s.radius > 0 then normal else normal.neg

/-- The method `SphereLens::getRefractiveIndexAtWavelength` (Cauchy model). -/
def SphereLens.getRefractiveIndexAtWavelength (s : SphereLens K) (wavelength : K) : K :=
  if wavelength ≤ 0 then s.refractiveIndex
  else
    let wavelengthMicrons := wavelength / 1000
    s.refractiveIndex + s.dispersiveCoefficient / (wavelengthMicrons * wavelengthMicrons)

/-- The local variables `isHit`, `t`, `hitPoint` of `intersectAndUpdateRay`. -/
structure HitSearch (K : Type) where
  isHit : Bool
  t : K
  hitPoint : Vec2 K

/-- The function `Optics::intersectAndUpdateRay`: returns the flag and the ray
after the call. -/
def intersectAndUpdateRay (sqrt : K → K) (ray : Ray K) (sphere : SphereLens K)
    (refractiveIndexBefore : K) : Bool × Ray K :=
  let rayOrigin := ray.getOrigin
  let oc := rayOrigin.sub (sphere.center.add ⟨sphere.radius, 0⟩)
  let a := dot ray.direction ray.direction
  let b := 2 * dot oc ray.direction
  let c := dot oc oc - sphere.radius * sphere.radius
  let discriminant := b * b - 4 * a * c
  if discriminant < 0 then (false, ray)
  else
    let sqrtDisc := sqrt discriminant
    let t1 := (-b - sqrtDisc) / (2 * a)
    let t2 := (-b + sqrtDisc) / (2 * a)
    let s0 : HitSearch K := ⟨false, 0, ⟨0, 0⟩⟩
    let s1 : HitSearch K :=
      if t1 > 1 / 10000 then
        if sphere.radius > 0 ∧ (ray.pointAt t1).x < sphere.center.x + sphere.radius then
          ⟨true, t1, ray.pointAt t1⟩
        else if sphere.radius < 0 ∧ (ray.pointAt t1).x > sphere.center.x + sphere.radius then
          ⟨true, t1, ray.pointAt t1⟩
        else ⟨s0.isHit, t1, ray.pointAt t1⟩
      else s0
    let s2 : HitSearch K :=
      if s1.isHit = false ∧ t2 > 1 / 10000 then
        if sphere.radius > 0 ∧ (ray.pointAt t2).x < sphere.center.x + sphere.radius then
          ⟨true, t2, ray.pointAt t2⟩
        else if sphere.radius < 0 ∧ (ray.pointAt t2).x > sphere.center.x + sphere.radius then
          ⟨true, t2, ray.pointAt t2⟩
        else ⟨s1.isHit, t2, ray.pointAt t2⟩
      else s1
    if s2.isHit = false then (false, ray)
    else
      let normal := sphere.getNormalAt sqrt s2.hitPoint
      let refractiveIndexAfter := if sphere.isEntrance then sphere.refractiveIndex else 1
      (true, ray.addHit sqrt s2.hitPoint normal refractiveIndexBefore refractiveIndexAfter s2.t)

/-- The refractive index `n1` chosen by `refractRay` for a hit record. -/
def refractN1 (ray : Ray K) (surface : SphereLens K) (lastHit : RayHit K) : K :=
  if surface.isEntrance then lastHit.refractiveIndexBefore
  else surface.getRefractiveIndexAtWavelength ray.wavelength

/-- The refractive index `n2` chosen by `refractRay` for a hit record. -/
def refractN2 (ray : Ray K) (surface : SphereLens K) (lastHit : RayHit K) : K :=
  if surface.isEntrance then surface.getRefractiveIndexAtWavelength ray.wavelength
  else lastHit.refractiveIndexAfter

/-- The function `Optics::refractRay`: returns the flag and the ray after the
call. -/
def refractRay (sqrt : K → K) (ray : Ray K) (surface : SphereLens K) : Bool × Ray K :=
  match ray.getLastHit with
  | none => (false, ray)
  | some lastHit =>
    let n1_base := lastHit.refractiveIndexBefore
    let n2_base := lastHit.refractiveIndexAfter
    let n1 :=
      if surface.isEntrance then n1_base
      else surface.getRefractiveIndexAtWavelength ray.wavelength
    let n2 :=
      if surface.isEntrance then surface.getRefractiveIndexAtWavelength ray.wavelength
      else n2_base
    let eta := n1 / n2
    let normal0 := lastHit.normal
    let cosI0 := -dot ray.direction normal0
    let cosI := if cosI0 < 0 then -cosI0 else cosI0
    let normal := if cosI0 < 0 then normal0.neg else normal0
    let sinT2 := eta * eta * (1 - cosI * cosI)
    if sinT2 > 1 then (false, ray)
    else
      let cosT := sqrt (1 - sinT2)
      let refractedDir := (ray.direction.smul eta).add (normal.smul (eta * cosI - cosT))
      (true, { ray with direction := normalize sqrt refractedDir })

/-- The body of the inner loop of `RefractNode::bake` for one lens `l`: the
state is the ray and the carried `refractiveIndexBefore`. -/
def traceSurface (sqrt : K → K) (st : Ray K × K) (l : SphereLens K) : Ray K × K :=
  let hit := intersectAndUpdateRay sqrt st.1 l st.2
  if hit.1 = true then
    let r := (refractRay sqrt hit.2 l).2
    if l.isEntrance then (r, l.getRefractiveIndexAtWavelength r.wavelength)
    else (r, 1)
  else (hit.2, st.2)

/-- The inner loop of `RefractNode::bake` for one ray: `refractiveIndexBefore`
starts at 1.0 and the lenses are processed in sequence order. -/
def traceRay (sqrt : K → K) (r : Ray K) (lenses : List (SphereLens K)) : Ray K × K :=
  lenses.foldl (traceSurface sqrt) (r, 1)

/-- The outer loop of `RefractNode::bake`: every ray is traced through the
whole lens sequence. -/
def traceAll (sqrt : K → K) (rays : List (Ray K)) (lenses : List (SphereLens K)) :
    List (Ray K) :=
  rays.map fun r => (traceRay sqrt r lenses).1

/-- The method `Ray::getWavelengthColor`.  `std::pow` is the argument `pow`,
`gamma` is 0.8, and `static_cast<uint8_t>` of a value already clamped to
[0, 255] is its integer part (truncation). -/
def Ray.getWavelengthColor [FloorRing K] (pow : K → K → K) (ray : Ray K) : tRGB :=
  let wl := ray.wavelength
  let gamma : K := 8 / 10
  if wl < 380 ∨ wl > 700 then ⟨0, 0, 0⟩
  else
    let rgb : K × K × K :=
      if wl ≥ 380 ∧ wl < 440 then (-(wl - 440) / (440 - 380), 0, 1)
      else if wl ≥ 440 ∧ wl < 490 then (0, (wl - 440) / (490 - 440), 1)
      else if wl ≥ 490 ∧ wl < 510 then (0, 1, -(wl - 510) / (510 - 490))
      else if wl ≥ 510 ∧ wl < 580 then ((wl - 510) / (580 - 510), 1, 0)
      else if wl ≥ 580 ∧ wl < 645 then (1, -(wl - 645) / (645 - 580), 0)
      else if wl ≥ 645 ∧ wl ≤ 700 then (1, 0, 0)
      else (0, 0, 0)
    let factor : K :=
      if wl < 420 ∨ wl > 700 then 3 / 10
      else if wl > 645 then 8 / 10
      else if wl < 420 then 4 / 10
      else 1
    let r := pow (max 0 rgb.1) (1 / gamma) * factor
    let g := pow (max 0 rgb.2.1) (1 / gamma) * factor
    let b := pow (max 0 rgb.2.2) (1 / gamma) * factor
    let r_byte := ⌊max 0 (min 255 (r * 255 * ray.intensity))⌋₊
    let g_byte := ⌊max 0 (min 255 (g * 255 * ray.intensity))⌋₊
    let b_byte := ⌊max 0 (min 255 (b * 255 * ray.intensity))⌋₊
    ⟨r_byte, g_byte, b_byte⟩

/-- The function `Optics::fresnelReflectance`. -/
def fresnelReflectance (sqrt : K → K) (incident normal : Vec2 K) (n1 n2 : K) : K :=
  let cosI := |dot incident normal|
  let sinT2 := (n1 / n2) * (n1 / n2) * (1 - cosI * cosI)
  if sinT2 > 1 then 1
  else
    let cosT := sqrt (1 - sinT2)
    let rs := (n1 * cosI - n2 * cosT) / (n1 * cosI + n2 * cosT)
    let rp := (n1 * cosT - n2 * cosI) / (n1 * cosT + n2 * cosI)
    (rs * rs + rp * rp) * (1 / 2)

/-- The struct `OpticsData` of `OpticsNode.h` (data members only). -/
structure OpticsData (K : Type) where
  rays : List (Ray K)
  lenses : List (SphereLens K)

/-- The operator `OpticsData::operator+=`: the value of the left operand after
`a += b`. -/
def OpticsData.plusAssign (a b : OpticsData K) : OpticsData K :=
  { rays := a.rays ++ b.rays, lenses := a.lenses ++ b.lenses }

/-! ### Names for the quantities the properties speak about -/

/-- The circle centre used by `intersectAndUpdateRay` and `getNormalAt`:
`center + (radius, 0)`. -/
def SphereLens.circleCenter (s : SphereLens K) : Vec2 K :=
  s.center.add ⟨s.radius, 0⟩

/-- The local `a` of `intersectAndUpdateRay`. -/
def quadA (ray : Ray K) : K := dot ray.direction ray.direction

/-- The local `b` of `intersectAndUpdateRay`. -/
def quadB (ray : Ray K) (sphere : SphereLens K) : K :=
  2 * dot (ray.getOrigin.sub (sphere.center.add ⟨sphere.radius, 0⟩)) ray.direction

/-- The local `c` of `intersectAndUpdateRay`. -/
def quadC (ray : Ray K) (sphere : SphereLens K) : K :=
  dot (ray.getOrigin.sub (sphere.center.add ⟨sphere.radius, 0⟩))
      (ray.getOrigin.sub (sphere.center.add ⟨sphere.radius, 0⟩))
    - sphere.radius * sphere.radius

/-- The local `discriminant` of `intersectAndUpdateRay`. -/
def discriminant (ray : Ray K) (sphere : SphereLens K) : K :=
  quadB ray sphere * quadB ray sphere - 4 * quadA ray * quadC ray sphere

/-- The local `t1` of `intersectAndUpdateRay`. -/
def root1 (sqrt : K → K) (ray : Ray K) (sphere : SphereLens K) : K :=
  (-quadB ray sphere - sqrt (discriminant ray sphere)) / (2 * quadA ray)

/-- The local `t2` of `intersectAndUpdateRay`. -/
def root2 (sqrt : K → K) (ray : Ray K) (sphere : SphereLens K) : K :=
  (-quadB ray sphere + sqrt (discriminant ray sphere)) / (2 * quadA ray)

/-- The side test of `intersectAndUpdateRay` on a candidate point: left of
`center.x + radius` for a positive radius, right of it for a negative one. -/
def sideOk (sphere : SphereLens K) (p : Vec2 K) : Prop :=
  (0 < sphere.radius ∧ p.x < sphere.center.x + sphere.radius) ∨
  (sphere.radius < 0 ∧ p.x > sphere.center.x + sphere.radius)

instance (sphere : SphereLens K) (p : Vec2 K) : Decidable (sideOk sphere p) :=
  inferInstanceAs (Decidable
    ((0 < sphere.radius ∧ p.x < sphere.center.x + sphere.radius) ∨
     (sphere.radius < 0 ∧ p.x > sphere.center.x + sphere.radius)))

/-- A parameter `t` is a valid forward hit: beyond the 0.0001 guard, its point
lies on the circle of centre `center + (radius, 0)`, and the point passes the
side test. -/
def validT (ray : Ray K) (sphere : SphereLens K) (t : K) : Prop :=
  1 / 10000 < t ∧
  dot ((ray.pointAt t).sub sphere.circleCenter) ((ray.pointAt t).sub sphere.circleCenter)
    = sphere.radius * sphere.radius ∧
  sideOk sphere (ray.pointAt t)

/-- The local `cosI` of `refractRay` after the sign fix. -/
def refractCosI (ray : Ray K) (lastHit : RayHit K) : K :=
  if -dot ray.direction lastHit.normal < 0 then -(-dot ray.direction lastHit.normal)
  else -dot ray.direction lastHit.normal

/-- The local `sinT2` of `refractRay`. -/
def refractSinT2 (ray : Ray K) (surface : SphereLens K) (lastHit : RayHit K) : K :=
  (refractN1 ray surface lastHit / refractN2 ray surface lastHit)
    * (refractN1 ray surface lastHit / refractN2 ray surface lastHit)
    * (1 - refractCosI ray lastHit * refractCosI ray lastHit)

/-- One call made on a ray: `intersectAndUpdateRay` with a surface and an index
argument, or `refractRay` with a surface. -/
inductive RayCall (K : Type) where
  | intersect (sphere : SphereLens K) (refractiveIndexBefore : K)
  | refract (surface : SphereLens K)

/-- The ray after one call (the returned flag is dropped). -/
def RayCall.run (sqrt : K → K) (ray : Ray K) : RayCall K → Ray K
  | .intersect sphere n => (intersectAndUpdateRay sqrt ray sphere n).2
  | .refract surface => (refractRay sqrt ray surface).2

/-- The ray after a finite sequence of calls, made in list order. -/
def runCalls (sqrt : K → K) (ray : Ray K) (calls : List (RayCall K)) : Ray K :=
  calls.foldl (RayCall.run sqrt) ray

/-- The path/hit invariant `path.size() == hits.size() + 1`. -/
def Ray.pathHitsInv (ray : Ray K) : Prop :=
  ray.path.length = ray.hits.length + 1

/-- The local `normal` of `refractRay` after the sign fix. -/
def refractNormal (ray : Ray K) (lastHit : RayHit K) : Vec2 K :=
  if -dot ray.direction lastHit.normal < 0 then lastHit.normal.neg else lastHit.normal

/-- The local `refractedDir` of `refractRay` (before normalization). -/
def refractedDir (sqrt : K → K) (ray : Ray K) (surface : SphereLens K)
    (lastHit : RayHit K) : Vec2 K :=
  (ray.direction.smul (refractN1 ray surface lastHit / refractN2 ray surface lastHit)).add
    ((refractNormal ray lastHit).smul
      (refractN1 ray surface lastHit / refractN2 ray surface lastHit * refractCosI ray lastHit
        - sqrt (1 - refractSinT2 ray surface lastHit)))

/-- The (r, g, b) ramp values `getWavelengthColor` assigns on the six
wavelength segments, before gamma correction. -/
def spectrumRGB (wl : K) : K × K × K :=
  if wl ≥ 380 ∧ wl < 440 then (-(wl - 440) / (440 - 380), 0, 1)
  else if wl ≥ 440 ∧ wl < 490 then (0, (wl - 440) / (490 - 440), 1)
  else if wl ≥ 490 ∧ wl < 510 then (0, 1, -(wl - 510) / (510 - 490))
  else if wl ≥ 510 ∧ wl < 580 then ((wl - 510) / (580 - 510), 1, 0)
  else if wl ≥ 580 ∧ wl < 645 then (1, -(wl - 645) / (645 - 580), 0)
  else if wl ≥ 645 ∧ wl ≤ 700 then (1, 0, 0)
  else (0, 0, 0)

/-- The local `factor` of `getWavelengthColor`. -/
def luminosityFactor (wl : K) : K :=
  if wl < 420 ∨ wl > 700 then 3 / 10
  else if wl > 645 then 8 / 10
  else if wl < 420 then 4 / 10
  else 1

/-- A channel of `getWavelengthColor` after gamma correction and luminosity
attenuation: `pow(max(0, c), 1 / 0.8) * factor`. -/
def gammaChannel (pow : K → K → K) (wl c : K) : K :=
  pow (max 0 c) (1 / (8 / 10)) * luminosityFactor wl

/-- What the colour theorems assume of `std::pow`: a base in [0, 1] raised to
a non-negative exponent stays in [0, 1]. -/
def PowUnit (pow : K → K → K) : Prop :=
  ∀ x y : K, 0 ≤ x → x ≤ 1 → 0 ≤ y → 0 ≤ pow x y ∧ pow x y ≤ 1

/-- A hit record was recorded by `intersectAndUpdateRay` on a surface of
non-zero radius: some call returned true and appended exactly this record. -/
def RecordedHit (sqrt : K → K) (h : RayHit K) : Prop :=
  ∃ (ray0 : Ray K) (sphere : SphereLens K) (n : K),
    sphere.radius ≠ 0 ∧
    (intersectAndUpdateRay sqrt ray0 sphere n).1 = true ∧
    (intersectAndUpdateRay sqrt ray0 sphere n).2.hits = ray0.hits ++ [h]

/-- The local `cosI` of `fresnelReflectance`. -/
def fresnelCosI (incident normal : Vec2 K) : K := |dot incident normal|

/-- The local `sinT2` of `fresnelReflectance`. -/
def fresnelSinT2 (incident normal : Vec2 K) (n1 n2 : K) : K :=
  (n1 / n2) * (n1 / n2) * (1 - fresnelCosI incident normal * fresnelCosI incident normal)

/-- The local `cosT` of `fresnelReflectance`. -/
def fresnelCosT (sqrt : K → K) (incident normal : Vec2 K) (n1 n2 : K) : K :=
  sqrt (1 - fresnelSinT2 incident normal n1 n2)

/-- The divisor `n1 * cosI + n2 * cosT` of `rs` in `fresnelReflectance`. -/
def fresnelDenomS (sqrt : K → K) (incident normal : Vec2 K) (n1 n2 : K) : K :=
  n1 * fresnelCosI incident normal + n2 * fresnelCosT sqrt incident normal n1 n2

/-- The divisor `n1 * cosT + n2 * cosI` of `rp` in `fresnelReflectance`. -/
def fresnelDenomP (sqrt : K → K) (incident normal : Vec2 K) (n1 n2 : K) : K :=
  n1 * fresnelCosT sqrt incident normal n1 n2 + n2 * fresnelCosI incident normal

/-- The dividend `n1 * cosI - n2 * cosT` of `rs` in `fresnelReflectance`. -/
def fresnelNumS (sqrt : K → K) (incident normal : Vec2 K) (n1 n2 : K) : K :=
  n1 * fresnelCosI incident normal - n2 * fresnelCosT sqrt incident normal n1 n2

/-- The dividend `n1 * cosT - n2 * cosI` of `rp` in `fresnelReflectance`. -/
def fresnelNumP (sqrt : K → K) (incident normal : Vec2 K) (n1 n2 : K) : K :=
  n1 * fresnelCosT sqrt incident normal n1 n2 - n2 * fresnelCosI incident normal

/-- The entrance surface `SphereLens((0,0), 10, 1.5, true, 0)`. -/
def lensConvex : SphereLens K :=
  { center := ⟨0, 0⟩, radius := 10, refractiveIndex := 3 / 2, isEntrance := true,
    dispersiveCoefficient := 0 }

/-- The exit surface `SphereLens((0,0), 10, 2.0, false, 0)`. -/
def lensDenseExit : SphereLens K :=
  { center := ⟨0, 0⟩, radius := 10, refractiveIndex := 2, isEntrance := false,
    dispersiveCoefficient := 0 }

/-- A ray at `orig` travelling along (1,0), wavelength 550, intensity 1, with no
hit yet (the state `Ray(orig, (1,0))` is in once (1,0) is normalized). -/
def rayAlongX (orig : Vec2 K) : Ray K :=
  { path := [orig], direction := ⟨1, 0⟩, wavelength := 550, intensity := 1, hits := [] }

/-- The ray from (-5,0) along (1,0) after its hit on the apex (0,0) of
`lensConvex`: normal (-1,0), distance 5, indices 1 and 1.5. -/
def rayAtApex : Ray K :=
  { path := [⟨-5, 0⟩, ⟨0, 0⟩], direction := ⟨1, 0⟩, wavelength := 550, intensity := 1,
    hits := [⟨⟨0, 0⟩, ⟨-1, 0⟩, 5, 1, 3 / 2⟩] }

/-- The ray from (-5,6) along (1,0) after its hit on `lensConvex` at (2,6):
normal (-4/5, 3/5), distance 7, indices 1 and 1.5. -/
def rayOffAxis : Ray K :=
  { path := [⟨-5, 6⟩, ⟨2, 6⟩], direction := ⟨1, 0⟩, wavelength := 550, intensity := 1,
    hits := [⟨⟨2, 6⟩, ⟨-4 / 5, 3 / 5⟩, 7, 1, 3 / 2⟩] }

/-- The exit surface `SphereLens((0,8), 10, 2.0, false, 0)`, whose circle has
centre (10,8) and meets the x axis at (4,0) and (16,0). -/
def lensTilted : SphereLens K :=
  { center := ⟨0, 8⟩, radius := 10, refractiveIndex := 2, isEntrance := false,
    dispersiveCoefficient := 0 }

/-- The ray from (-5,0) along (1,0) after it entered a medium of index 2 at
(0,0) under normal incidence: one hit with normal (-1,0), indices 1 and 2. -/
def rayInDense : Ray K :=
  { path := [⟨-5, 0⟩, ⟨0, 0⟩], direction := ⟨1, 0⟩, wavelength := 550, intensity := 1,
    hits := [⟨⟨0, 0⟩, ⟨-1, 0⟩, 5, 1, 2⟩] }

/-- The ray `rayInDense` after its hit on `lensTilted` at (4,0): normal
(-3/5, -4/5), distance 4, index `n` before and 1 after. -/
def rayInDenseHit (n : K) : Ray K :=
  { path := [⟨-5, 0⟩, ⟨0, 0⟩, ⟨4, 0⟩], direction := ⟨1, 0⟩, wavelength := 550, intensity := 1,
    hits := [⟨⟨0, 0⟩, ⟨-1, 0⟩, 5, 1, 2⟩, ⟨⟨4, 0⟩, ⟨-3 / 5, -4 / 5⟩, 4, n, 1⟩] }

/-- The entrance surface `SphereLens((0,0), 10, 1.5, true, 0.003025)`: same
geometry as `lensConvex`, with dispersion; its index at 550 nm is 1.51. -/
def lensDispersive : SphereLens K :=
  { center := ⟨0, 0⟩, radius := 10, refractiveIndex := 3 / 2, isEntrance := true,
    dispersiveCoefficient := 121 / 40000 }

/-- The surface `SphereLens((0,0), 0, 1.5, true, 0)` of radius zero. -/
def lensFlat : SphereLens K :=
  { center := ⟨0, 0⟩, radius := 0, refractiveIndex := 3 / 2, isEntrance := true,
    dispersiveCoefficient := 0 }

/-- A ray at (0,0) along (1,0) with the given wavelength and intensity. -/
def rayColour (wl intens : K) : Ray K :=
  { path := [⟨0, 0⟩], direction := ⟨1, 0⟩, wavelength := wl, intensity := intens, hits := [] }

/-- A ray inside a medium of index 2 travelling along (3/5, 4/5) with a hit of
normal (-1,0) recorded at (0,0), indices 2 before and 1 after. -/
def raySteep : Ray K :=
  { path := [⟨-3, -4⟩, ⟨0, 0⟩], direction := ⟨3 / 5, 4 / 5⟩, wavelength := 550,
    intensity := 1, hits := [⟨⟨0, 0⟩, ⟨-1, 0⟩, 5, 2, 1⟩] }

/-! ### Square-root facts -/

theorem isSqrt_sq {sqrt : K → K} (hs : IsSqrt sqrt) {x : K} (hx : 0 ≤ x) :
    sqrt (x * x) = x := by
  obtain ⟨h0, h1⟩ := hs (x * x) (mul_self_nonneg x)
  exact (mul_self_inj h0 hx).1 h1

theorem isSqrt_one {sqrt : K → K} (hs : IsSqrt sqrt) : sqrt 1 = 1 := by
  have h := isSqrt_sq hs (zero_le_one (α := K))
  simpa using h

theorem real_isSqrt : IsSqrt Real.sqrt :=
  fun x hx => ⟨Real.sqrt_nonneg x, Real.mul_self_sqrt hx⟩

/-- A vector with `dot v v = 1` is left alone by `normalize`. -/
theorem normalize_unit {sqrt : K → K} (hs : IsSqrt sqrt) (v : Vec2 K)
    (hv : dot v v = 1) : NodeWeft.normalize sqrt v = v := by
  cases v with
  | mk x y =>
    simp only [NodeWeft.normalize, length, hv, isSqrt_one hs, div_one]

/-! ### The decision made by `intersectAndUpdateRay` -/

/-- The search over the two candidate roots, with the tests abstracted to
propositions: the state after both attempts. -/
theorem hitSearch_eq (H1 H2 A1 B1 A2 B2 : Prop) [Decidable H1] [Decidable H2]
    [Decidable A1] [Decidable B1] [Decidable A2] [Decidable B2]
    (t1 t2 : K) (p1 p2 : Vec2 K) :
    (let s0 : HitSearch K := ⟨false, 0, ⟨0, 0⟩⟩
     let s1 : HitSearch K :=
      if H1 then
        if A1 then ⟨true, t1, p1⟩
        else if B1 then ⟨true, t1, p1⟩
        else ⟨s0.isHit, t1, p1⟩
      else s0
     let s2 : HitSearch K :=
      if s1.isHit = false ∧ H2 then
        if A2 then ⟨true, t2, p2⟩
        else if B2 then ⟨true, t2, p2⟩
        else ⟨s1.isHit, t2, p2⟩
      else s1
     s2) =
    if H1 ∧ (A1 ∨ B1) then ⟨true, t1, p1⟩
    else if H2 ∧ (A2 ∨ B2) then ⟨true, t2, p2⟩
    else if H2 then ⟨false, t2, p2⟩
    else if H1 then ⟨false, t1, p1⟩
    else ⟨false, 0, ⟨0, 0⟩⟩ := by
  by_cases h1 : H1 <;> by_cases h2 : H2 <;> by_cases a1 : A1 <;> by_cases b1 : B1 <;>
    by_cases a2 : A2 <;> by_cases b2 : B2 <;> simp [h1, h2, a1, b1, a2, b2]

/-- The function `intersectAndUpdateRay` as a decision on the two roots: no
real root, first root accepted, second root accepted, or no hit. -/
theorem intersect_eq (sqrt : K → K) (ray : Ray K) (sphere : SphereLens K) (n : K) :
    intersectAndUpdateRay sqrt ray sphere n =
      if discriminant ray sphere < 0 then (false, ray)
      else if 1 / 10000 < root1 sqrt ray sphere ∧
          sideOk sphere (ray.pointAt (root1 sqrt ray sphere)) then
        (true, ray.addHit sqrt (ray.pointAt (root1 sqrt ray sphere))
          (sphere.getNormalAt sqrt (ray.pointAt (root1 sqrt ray sphere))) n
          (if sphere.isEntrance then sphere.refractiveIndex else 1) (root1 sqrt ray sphere))
      else if 1 / 10000 < root2 sqrt ray sphere ∧
          sideOk sphere (ray.pointAt (root2 sqrt ray sphere)) then
        (true, ray.addHit sqrt (ray.pointAt (root2 sqrt ray sphere))
          (sphere.getNormalAt sqrt (ray.pointAt (root2 sqrt ray sphere))) n
          (if sphere.isEntrance then sphere.refractiveIndex else 1) (root2 sqrt ray sphere))
      else (false, ray) := by
  by_cases hd : discriminant ray sphere < 0
  · rw [if_pos hd]
    show (if discriminant ray sphere < 0 then (false, ray) else _) = _
    rw [if_pos hd]
  · rw [if_neg hd]
    have key := hitSearch_eq (1 / 10000 < root1 sqrt ray sphere) (1 / 10000 < root2 sqrt ray sphere)
      (0 < sphere.radius ∧ (ray.pointAt (root1 sqrt ray sphere)).x < sphere.center.x + sphere.radius)
      (sphere.radius < 0 ∧ (ray.pointAt (root1 sqrt ray sphere)).x > sphere.center.x + sphere.radius)
      (0 < sphere.radius ∧ (ray.pointAt (root2 sqrt ray sphere)).x < sphere.center.x + sphere.radius)
      (sphere.radius < 0 ∧ (ray.pointAt (root2 sqrt ray sphere)).x > sphere.center.x + sphere.radius)
      (root1 sqrt ray sphere) (root2 sqrt ray sphere)
      (ray.pointAt (root1 sqrt ray sphere)) (ray.pointAt (root2 sqrt ray sphere))
    have fin : ∀ s : HitSearch K, ∃ r : Bool × Ray K, r =
        if s.isHit = false then (false, ray)
        else (true, ray.addHit sqrt s.hitPoint (sphere.getNormalAt sqrt s.hitPoint) n
          (if sphere.isEntrance then sphere.refractiveIndex else 1) s.t) := fun s => ⟨_, rfl⟩
    show (if discriminant ray sphere < 0 then (false, ray) else
      (if HitSearch.isHit _ = false then (false, ray) else _)) = _
    rw [if_neg hd]
    refine (congrArg (fun s : HitSearch K => if s.isHit = false then (false, ray)
        else (true, ray.addHit sqrt s.hitPoint (sphere.getNormalAt sqrt s.hitPoint) n
          (if sphere.isEntrance then sphere.refractiveIndex else 1) s.t)) key).trans ?_
    clear key fin
    by_cases c1 : 1 / 10000 < root1 sqrt ray sphere ∧
        sideOk sphere (ray.pointAt (root1 sqrt ray sphere))
    · have c1' := c1
      unfold sideOk at c1'
      simp only [if_pos c1, if_pos c1']
      simp
    · have c1' := c1
      unfold sideOk at c1'
      simp only [if_neg c1, if_neg c1']
      by_cases c2 : 1 / 10000 < root2 sqrt ray sphere ∧
          sideOk sphere (ray.pointAt (root2 sqrt ray sphere))
      · have c2' := c2
        unfold sideOk at c2'
        simp only [if_pos c2, if_pos c2']
        simp
      · have c2' := c2
        unfold sideOk at c2'
        simp only [if_neg c2, if_neg c2']
        split_ifs <;> first | rfl | (exfalso; simp_all)

/-- Every outcome of `intersectAndUpdateRay` is either "no hit, ray returned as
it was" or "hit at some parameter beyond the guard whose point passes the side
test, recorded by `addHit`". -/
theorem intersect_cases (sqrt : K → K) (ray : Ray K) (sphere : SphereLens K) (n : K) :
    intersectAndUpdateRay sqrt ray sphere n = (false, ray) ∨
    ∃ t : K, 1 / 10000 < t ∧ sideOk sphere (ray.pointAt t) ∧
      intersectAndUpdateRay sqrt ray sphere n =
        (true, ray.addHit sqrt (ray.pointAt t) (sphere.getNormalAt sqrt (ray.pointAt t)) n
          (if sphere.isEntrance then sphere.refractiveIndex else 1) t) := by
  rw [intersect_eq]
  by_cases hd : discriminant ray sphere < 0
  · rw [if_pos hd]; exact Or.inl rfl
  · rw [if_neg hd]
    by_cases h1 : 1 / 10000 < root1 sqrt ray sphere ∧
        sideOk sphere (ray.pointAt (root1 sqrt ray sphere))
    · rw [if_pos h1]; exact Or.inr ⟨_, h1.1, h1.2, rfl⟩
    · rw [if_neg h1]
      by_cases h2 : 1 / 10000 < root2 sqrt ray sphere ∧
          sideOk sphere (ray.pointAt (root2 sqrt ray sphere))
      · rw [if_pos h2]; exact Or.inr ⟨_, h2.1, h2.2, rfl⟩
      · rw [if_neg h2]; exact Or.inl rfl

/-- Every outcome of `refractRay` keeps path, hits, wavelength and intensity. -/
theorem refract_frame (sqrt : K → K) (ray : Ray K) (surface : SphereLens K) :
    (refractRay sqrt ray surface).2.path = ray.path ∧
    (refractRay sqrt ray surface).2.hits = ray.hits ∧
    (refractRay sqrt ray surface).2.wavelength = ray.wavelength ∧
    (refractRay sqrt ray surface).2.intensity = ray.intensity := by
  unfold refractRay
  cases ray.getLastHit with
  | none => exact ⟨rfl, rfl, rfl, rfl⟩
  | some lastHit =>
    dsimp only
    split_ifs <;> exact ⟨rfl, rfl, rfl, rfl⟩

/-- One call keeps the path/hit invariant. -/
theorem run_pathHitsInv (sqrt : K → K) (ray : Ray K) (call : RayCall K)
    (h : ray.pathHitsInv) : (call.run sqrt ray).pathHitsInv := by
  cases call with
  | intersect sphere n =>
    rcases intersect_cases sqrt ray sphere n with h0 | ⟨t, _, _, h1⟩
    · simp only [RayCall.run, h0]; exact h
    · simp only [RayCall.run, h1, Ray.pathHitsInv, Ray.addHit, List.length_append,
        List.length_singleton]
      unfold Ray.pathHitsInv at h
      omega
  | refract surface =>
    obtain ⟨hp, hh, _, _⟩ := refract_frame sqrt ray surface
    simp only [RayCall.run, Ray.pathHitsInv, hp, hh]
    exact h

/-- A sequence of calls keeps the path/hit invariant. -/
theorem runCalls_pathHitsInv (sqrt : K → K) (calls : List (RayCall K)) :
    ∀ ray : Ray K, ray.pathHitsInv → (runCalls sqrt ray calls).pathHitsInv := by
  induction calls with
  | nil => intro ray h; exact h
  | cons c cs ih =>
    intro ray h
    exact ih _ (run_pathHitsInv sqrt ray c h)

/-! ### The decision made by `refractRay` -/

/-- With a last hit, `refractRay` fails exactly when `sinT2 > 1` and otherwise
stores the normalized `refractedDir`. -/
theorem refract_eq (sqrt : K → K) (ray : Ray K) (surface : SphereLens K)
    (lastHit : RayHit K) (hlast : ray.getLastHit = some lastHit) :
    refractRay sqrt ray surface =
      if 1 < refractSinT2 ray surface lastHit then (false, ray)
      else (true, { ray with
        direction := NodeWeft.normalize sqrt (refractedDir sqrt ray surface lastHit) }) := by
  unfold refractRay
  rw [hlast]
  rfl

/-- Without a hit, `refractRay` fails and returns the ray as it was. -/
theorem refract_none (sqrt : K → K) (ray : Ray K) (surface : SphereLens K)
    (hlast : ray.getLastHit = none) : refractRay sqrt ray surface = (false, ray) := by
  unfold refractRay
  rw [hlast]

theorem refractCosI_eq (ray : Ray K) (lastHit : RayHit K) :
    refractCosI ray lastHit = -dot ray.direction (refractNormal ray lastHit) := by
  unfold refractCosI refractNormal
  split_ifs
  · simp only [dot, Vec2.neg]; ring
  · rfl

theorem refractCosI_sq (ray : Ray K) (lastHit : RayHit K) :
    refractCosI ray lastHit * refractCosI ray lastHit
      = dot ray.direction lastHit.normal ^ 2 := by
  unfold refractCosI
  split_ifs <;> ring

theorem refractNormal_unit (ray : Ray K) (lastHit : RayHit K)
    (hN : dot lastHit.normal lastHit.normal = 1) :
    dot (refractNormal ray lastHit) (refractNormal ray lastHit) = 1 := by
  unfold refractNormal
  split_ifs
  · simpa [dot, Vec2.neg] using hN
  · exact hN

theorem refractNormal_cross (ray : Ray K) (lastHit : RayHit K) :
    cross (refractNormal ray lastHit) lastHit.normal = 0 := by
  unfold refractNormal
  split_ifs <;> simp [cross, Vec2.neg] <;> ring

/-- The vector form of Snell's law yields a unit vector: for unit `d`, `n`, with
`cosI = -d.n` and `cosT * cosT = 1 - eta^2 (1 - cosI^2)`, the vector
`d * eta + n * (eta * cosI - cosT)` has squared length 1. -/
theorem snell_unit (d n : Vec2 K) (eta cosI cosT : K)
    (hd : dot d d = 1) (hn : dot n n = 1) (hI : cosI = -dot d n)
    (hT : cosT * cosT = 1 - eta * eta * (1 - cosI * cosI)) :
    dot ((d.smul eta).add (n.smul (eta * cosI - cosT)))
        ((d.smul eta).add (n.smul (eta * cosI - cosT))) = 1 := by
  cases d with
  | mk dx dy =>
    cases n with
    | mk nx ny =>
      simp only [dot, Vec2.smul, Vec2.add] at *
      subst hI
      linear_combination (eta * eta) * hd
        + ((eta * (-(dx * nx + dy * ny)) - cosT) * (eta * (-(dx * nx + dy * ny)) - cosT)) * hn
        + hT

/-! ### Refraction: Snell's law, total internal reflection, missing history -/

/-- Claim C1: for a ray whose last hit exists, with unit direction `d` and unit
hit normal `N`, and a surface for which the indices `n1`, `n2` chosen by
`refractRay` are positive with `(n1/n2)^2 * (1 - (d.N)^2) <= 1`, the call
returns true, leaves path and hits unchanged, and the new direction is a unit
vector with `n2 * cross(d1, N) = n1 * cross(d, N)` (Snell's law). -/
theorem refractRay_snell (sqrt : K → K) (hs : IsSqrt sqrt) (ray : Ray K)
    (surface : SphereLens K) (lastHit : RayHit K)
    (hlast : ray.getLastHit = some lastHit)
    (hd : dot ray.direction ray.direction = 1)
    (hN : dot lastHit.normal lastHit.normal = 1)
    (_hn1 : 0 < refractN1 ray surface lastHit)
    (hn2 : 0 < refractN2 ray surface lastHit)
    (hsin : (refractN1 ray surface lastHit / refractN2 ray surface lastHit) ^ 2
        * (1 - dot ray.direction lastHit.normal ^ 2) ≤ 1) :
    (refractRay sqrt ray surface).1 = true ∧
    (refractRay sqrt ray surface).2.path = ray.path ∧
    (refractRay sqrt ray surface).2.hits = ray.hits ∧
    dot (refractRay sqrt ray surface).2.direction
        (refractRay sqrt ray surface).2.direction = 1 ∧
    refractN2 ray surface lastHit
        * cross (refractRay sqrt ray surface).2.direction lastHit.normal
      = refractN1 ray surface lastHit * cross ray.direction lastHit.normal := by
  have hsinT : refractSinT2 ray surface lastHit
      = (refractN1 ray surface lastHit / refractN2 ray surface lastHit) ^ 2
        * (1 - dot ray.direction lastHit.normal ^ 2) := by
    unfold refractSinT2
    linear_combination
      (refractN1 ray surface lastHit / refractN2 ray surface lastHit
        * (refractN1 ray surface lastHit / refractN2 ray surface lastHit))
      * (-(refractCosI_sq ray lastHit))
  have hle : ¬ 1 < refractSinT2 ray surface lastHit := by
    rw [hsinT]; exact not_lt.mpr hsin
  have hroot := hs (1 - refractSinT2 ray surface lastHit) (by
    have := not_lt.mp hle; linarith)
  have hunit : dot (refractedDir sqrt ray surface lastHit)
      (refractedDir sqrt ray surface lastHit) = 1 := by
    unfold refractedDir
    refine snell_unit _ _ _ _ _ hd (refractNormal_unit ray lastHit hN)
      (refractCosI_eq ray lastHit) ?_
    rw [hroot.2]
    rfl
  rw [refract_eq sqrt ray surface lastHit hlast, if_neg hle]
  refine ⟨rfl, rfl, rfl, ?_, ?_⟩
  · show dot (NodeWeft.normalize sqrt _) (NodeWeft.normalize sqrt _) = 1
    rw [normalize_unit hs _ hunit]
    exact hunit
  · show _ * cross (NodeWeft.normalize sqrt _) _ = _
    rw [normalize_unit hs _ hunit]
    have hc := refractNormal_cross ray lastHit
    have hne : refractN2 ray surface lastHit ≠ 0 := ne_of_gt hn2
    have heta : refractN2 ray surface lastHit
        * (refractN1 ray surface lastHit / refractN2 ray surface lastHit)
        = refractN1 ray surface lastHit := by
      field_simp
    unfold refractedDir
    simp only [cross, Vec2.add, Vec2.smul] at hc ⊢
    linear_combination
      (ray.direction.x * lastHit.normal.y - ray.direction.y * lastHit.normal.x) * heta
      + (refractN2 ray surface lastHit *
          (refractN1 ray surface lastHit / refractN2 ray surface lastHit
              * refractCosI ray lastHit
            - sqrt (1 - refractSinT2 ray surface lastHit))) * hc

/-- The instance of claim C1 for the ray along (1,0) hitting `lensConvex` at
(2,6) with normal (-4/5, 3/5): `n1 = 1`, `n2 = 3/2`, `sinT2 = 4/25`. -/
theorem refractRay_snell_witness :
    (refractRay Real.sqrt (rayOffAxis : Ray ℝ) lensConvex).1 = true ∧
    (refractRay Real.sqrt (rayOffAxis : Ray ℝ) lensConvex).2.path = rayOffAxis.path ∧
    (refractRay Real.sqrt (rayOffAxis : Ray ℝ) lensConvex).2.hits = rayOffAxis.hits ∧
    dot (refractRay Real.sqrt (rayOffAxis : Ray ℝ) lensConvex).2.direction
        (refractRay Real.sqrt (rayOffAxis : Ray ℝ) lensConvex).2.direction = 1 ∧
    (3 / 2 : ℝ) * cross (refractRay Real.sqrt (rayOffAxis : Ray ℝ) lensConvex).2.direction
        ⟨-4 / 5, 3 / 5⟩
      = 1 * cross (⟨1, 0⟩ : Vec2 ℝ) ⟨-4 / 5, 3 / 5⟩ := by
  have h := refractRay_snell Real.sqrt real_isSqrt (rayOffAxis : Ray ℝ) lensConvex
    ⟨⟨2, 6⟩, ⟨-4 / 5, 3 / 5⟩, 7, 1, 3 / 2⟩ rfl
    (by norm_num [rayOffAxis, dot])
    (by norm_num [dot])
    (by norm_num [refractN1, lensConvex])
    (by norm_num [refractN2, lensConvex, rayOffAxis, SphereLens.getRefractiveIndexAtWavelength])
    (by norm_num [refractN1, refractN2, lensConvex, rayOffAxis, dot,
      SphereLens.getRefractiveIndexAtWavelength])
  have e1 : refractN1 (rayOffAxis : Ray ℝ) lensConvex ⟨⟨2, 6⟩, ⟨-4 / 5, 3 / 5⟩, 7, 1, 3 / 2⟩ = 1 := by
    norm_num [refractN1, lensConvex]
  have e2 : refractN2 (rayOffAxis : Ray ℝ) lensConvex ⟨⟨2, 6⟩, ⟨-4 / 5, 3 / 5⟩, 7, 1, 3 / 2⟩
      = 3 / 2 := by
    norm_num [refractN2, lensConvex, rayOffAxis, SphereLens.getRefractiveIndexAtWavelength]
  rw [e1, e2] at h
  exact h

/-- Claim C2: for a ray whose last hit exists, if the `sinT2` computed by
`refractRay` (from its `n1`, `n2` and `cosI`) exceeds 1, the call returns false
and the whole ray (direction, path, hits, wavelength, intensity) is what it was
before the call. -/
theorem refractRay_total_internal_reflection (sqrt : K → K) (ray : Ray K)
    (surface : SphereLens K) (lastHit : RayHit K)
    (hlast : ray.getLastHit = some lastHit)
    (hsin : 1 < (refractN1 ray surface lastHit / refractN2 ray surface lastHit) ^ 2
        * (1 - refractCosI ray lastHit ^ 2)) :
    (refractRay sqrt ray surface).1 = false ∧ (refractRay sqrt ray surface).2 = ray := by
  have hsinT : 1 < refractSinT2 ray surface lastHit := by
    unfold refractSinT2
    calc (1 : K) < (refractN1 ray surface lastHit / refractN2 ray surface lastHit) ^ 2
        * (1 - refractCosI ray lastHit ^ 2) := hsin
      _ = _ := by ring
  rw [refract_eq sqrt ray surface lastHit hlast, if_pos hsinT]
  exact ⟨rfl, rfl⟩

/-- The instance of claim C2 for a ray leaving a medium of index 2.0 into 1.0
along (3/5, 4/5) against the normal (-1,0): `sinT2 = 64/25 > 1`. -/
theorem refractRay_total_internal_reflection_witness :
    (1 : ℝ) < (2 / 1) ^ 2 * (1 - (3 / 5) ^ 2) ∧
    (refractRay Real.sqrt (raySteep : Ray ℝ) lensDenseExit).1 = false ∧
    (refractRay Real.sqrt (raySteep : Ray ℝ) lensDenseExit).2 = raySteep := by
  refine ⟨by norm_num, ?_⟩
  exact refractRay_total_internal_reflection Real.sqrt (raySteep : Ray ℝ) lensDenseExit
    ⟨⟨0, 0⟩, ⟨-1, 0⟩, 5, 2, 1⟩ rfl
    (by norm_num [refractN1, refractN2, refractCosI, lensDenseExit, raySteep, dot,
      SphereLens.getRefractiveIndexAtWavelength])

/-- Claim C6: for a ray whose hit sequence is empty, `refractRay` returns false
and the ray (path, hits, direction, wavelength, intensity) is unmodified. -/
theorem refractRay_no_history (sqrt : K → K) (ray : Ray K) (surface : SphereLens K)
    (hempty : ray.hits = []) :
    (refractRay sqrt ray surface).1 = false ∧ (refractRay sqrt ray surface).2 = ray := by
  have hlast : ray.getLastHit = none := by
    unfold Ray.getLastHit
    rw [hempty]
    rfl
  rw [refract_none sqrt ray surface hlast]
  exact ⟨rfl, rfl⟩

/-- The instance of claim C6 for the default-constructed ray. -/
theorem refractRay_no_history_witness :
    (Ray.default : Ray ℝ).hits = [] ∧
    (refractRay Real.sqrt (Ray.default : Ray ℝ) lensConvex).1 = false ∧
    (refractRay Real.sqrt (Ray.default : Ray ℝ) lensConvex).2 = Ray.default :=
  ⟨rfl, refractRay_no_history Real.sqrt (Ray.default : Ray ℝ) lensConvex rfl⟩

/-! ### Normal incidence -/

/-- For a unit direction parallel to the hit normal, the sign fix of
`refractRay` gives `cosI = 1` and a normal opposite to the direction. -/
theorem parallel_cosI (ray : Ray K) (lastHit : RayHit K)
    (hd : dot ray.direction ray.direction = 1)
    (hpar : ray.direction = lastHit.normal ∨ ray.direction = lastHit.normal.neg) :
    refractCosI ray lastHit = 1 ∧ refractNormal ray lastHit = ray.direction.neg := by
  have hdx : ray.direction.x * ray.direction.x + ray.direction.y * ray.direction.y = 1 := hd
  rcases hpar with h | h
  · have hneg : -dot ray.direction lastHit.normal < 0 := by
      rw [← h, hd]; exact neg_lt_zero.mpr one_pos
    unfold refractCosI refractNormal
    rw [if_pos hneg, if_pos hneg, ← h, hd]
    exact ⟨neg_neg 1, rfl⟩
  · have hN : lastHit.normal = ray.direction.neg := by
      rw [h]
      simp only [Vec2.neg, neg_neg]
    have hdot : -dot ray.direction lastHit.normal = 1 := by
      rw [hN]
      simp only [dot, Vec2.neg]
      linear_combination hdx
    have hnn : ¬ -dot ray.direction lastHit.normal < 0 := by
      rw [hdot]; exact not_lt.mpr zero_le_one
    unfold refractCosI refractNormal
    rw [if_neg hnn, if_neg hnn]
    exact ⟨hdot, hN⟩

/-- For a unit direction parallel to the hit normal, `sinT2 = 0` and the
refracted direction before normalization is the direction itself. -/
theorem parallel_refractedDir {sqrt : K → K} (hs : IsSqrt sqrt) (ray : Ray K)
    (surface : SphereLens K) (lastHit : RayHit K)
    (hd : dot ray.direction ray.direction = 1)
    (hpar : ray.direction = lastHit.normal ∨ ray.direction = lastHit.normal.neg) :
    refractSinT2 ray surface lastHit = 0 ∧
    refractedDir sqrt ray surface lastHit = ray.direction := by
  have hcos := parallel_cosI ray lastHit hd hpar
  have hsinT : refractSinT2 ray surface lastHit = 0 := by
    unfold refractSinT2
    rw [hcos.1]
    ring
  refine ⟨hsinT, ?_⟩
  unfold refractedDir
  rw [hsinT, hcos.1, hcos.2, sub_zero, isSqrt_one hs]
  simp only [Vec2.add, Vec2.smul, Vec2.neg]
  congr 1 <;> ring

/-- A ray whose unit direction is parallel to its last hit normal comes out of
`refractRay` as it went in, with the flag true. -/
theorem refract_parallel {sqrt : K → K} (hs : IsSqrt sqrt) (ray : Ray K)
    (surface : SphereLens K) (lastHit : RayHit K)
    (hlast : ray.getLastHit = some lastHit)
    (hd : dot ray.direction ray.direction = 1)
    (hpar : ray.direction = lastHit.normal ∨ ray.direction = lastHit.normal.neg) :
    refractRay sqrt ray surface = (true, ray) := by
  obtain ⟨hsinT, hdir⟩ := parallel_refractedDir hs ray surface lastHit hd hpar
  rw [refract_eq sqrt ray surface lastHit hlast, hsinT, if_neg (not_lt.mpr zero_le_one), hdir,
    normalize_unit hs _ hd]

/-- Claim C9: for a ray whose last hit exists, with unit direction `d` parallel
to the hit normal (`d = N` or `d = -N`), and a surface giving non-zero `n1` and
`n2`, `refractRay` returns true and the direction after the call equals `d`. -/
theorem refractRay_normal_incidence (sqrt : K → K) (hs : IsSqrt sqrt) (ray : Ray K)
    (surface : SphereLens K) (lastHit : RayHit K)
    (hlast : ray.getLastHit = some lastHit)
    (hd : dot ray.direction ray.direction = 1)
    (hpar : ray.direction = lastHit.normal ∨ ray.direction = lastHit.normal.neg)
    (_hn1 : refractN1 ray surface lastHit ≠ 0)
    (_hn2 : refractN2 ray surface lastHit ≠ 0) :
    (refractRay sqrt ray surface).1 = true ∧
    (refractRay sqrt ray surface).2.direction = ray.direction := by
  obtain ⟨hsinT, hdir⟩ := parallel_refractedDir hs ray surface lastHit hd hpar
  have hno : ¬ 1 < refractSinT2 ray surface lastHit := by
    rw [hsinT]
    exact not_lt.mpr zero_le_one
  rw [refract_eq sqrt ray surface lastHit hlast, if_neg hno]
  refine ⟨rfl, ?_⟩
  show NodeWeft.normalize sqrt (refractedDir sqrt ray surface lastHit) = ray.direction
  rw [hdir]
  exact normalize_unit hs ray.direction hd

/-- The instance of claim C9 for the ray from (-5,0) along (1,0) that hit the
apex (0,0) of the convex entrance surface centre (0,0), radius 10, index 1.5:
the direction stays (1,0). -/
theorem refractRay_normal_incidence_witness :
    (refractRay Real.sqrt (rayAtApex : Ray ℝ) lensConvex).1 = true ∧
    (refractRay Real.sqrt (rayAtApex : Ray ℝ) lensConvex).2.direction = ⟨1, 0⟩ :=
  refractRay_normal_incidence Real.sqrt real_isSqrt (rayAtApex : Ray ℝ) lensConvex
    ⟨⟨0, 0⟩, ⟨-1, 0⟩, 5, 1, 3 / 2⟩ rfl
    (by norm_num [rayAtApex, dot])
    (Or.inr (by simp [rayAtApex, Vec2.neg]))
    (by norm_num [refractN1, lensConvex])
    (by norm_num [refractN2, lensConvex, rayAtApex, SphereLens.getRefractiveIndexAtWavelength])

/-! ### Path and hit bookkeeping -/

/-- Claim C4: a ray made by either constructor and then subjected to any finite
sequence of `intersectAndUpdateRay` and `refractRay` calls (any surfaces, any
index arguments, any results) satisfies `path.size() == hits.size() + 1` after
every call, that is, after every initial segment `calls.take k` of the
sequence. -/
theorem path_hits_invariant (sqrt : K → K) (calls : List (RayCall K)) (k : Nat)
    (orig dir : Vec2 K) (wl intens : K) :
    (runCalls sqrt (Ray.default : Ray K) (calls.take k)).path.length
      = (runCalls sqrt (Ray.default : Ray K) (calls.take k)).hits.length + 1 ∧
    (runCalls sqrt (Ray.new sqrt orig dir wl intens) (calls.take k)).path.length
      = (runCalls sqrt (Ray.new sqrt orig dir wl intens) (calls.take k)).hits.length + 1 :=
  ⟨runCalls_pathHitsInv sqrt (calls.take k) Ray.default rfl,
   runCalls_pathHitsInv sqrt (calls.take k) (Ray.new sqrt orig dir wl intens) rfl⟩

/-- Claim C5: a negative discriminant makes `intersectAndUpdateRay` return
false, and whenever it returns false the ray after the call (path, hits,
direction, wavelength, intensity) equals the ray before the call. -/
theorem intersect_no_hit_untouched (sqrt : K → K) (ray : Ray K) (sphere : SphereLens K)
    (n : K) :
    (discriminant ray sphere < 0 → (intersectAndUpdateRay sqrt ray sphere n).1 = false) ∧
    ((intersectAndUpdateRay sqrt ray sphere n).1 = false →
      (intersectAndUpdateRay sqrt ray sphere n).2 = ray) := by
  constructor
  · intro hd
    rw [intersect_eq, if_pos hd]
  · intro h
    rcases intersect_cases sqrt ray sphere n with h0 | ⟨t, _, _, h1⟩
    · rw [h0]
    · rw [h1] at h
      exact absurd h (by simp)

/-- The instance of claim C5 for the ray at (0,20) along (1,0) and `lensConvex`:
the discriminant is -1200, the call returns false and the ray is unchanged. -/
theorem intersect_no_hit_untouched_witness :
    discriminant (rayAlongX ⟨0, 20⟩ : Ray ℝ) lensConvex < 0 ∧
    (intersectAndUpdateRay Real.sqrt (rayAlongX ⟨0, 20⟩ : Ray ℝ) lensConvex 1).1 = false ∧
    (intersectAndUpdateRay Real.sqrt (rayAlongX ⟨0, 20⟩ : Ray ℝ) lensConvex 1).2
      = rayAlongX ⟨0, 20⟩ := by
  have hd : discriminant (rayAlongX ⟨0, 20⟩ : Ray ℝ) lensConvex < 0 := by
    norm_num [discriminant, quadA, quadB, quadC, rayAlongX, lensConvex, Ray.getOrigin, dot,
      Vec2.sub, Vec2.add]
  have h := intersect_no_hit_untouched Real.sqrt (rayAlongX ⟨0, 20⟩ : Ray ℝ) lensConvex 1
  exact ⟨hd, h.1 hd, h.2 (h.1 hd)⟩

/-- Claim C8: whenever `intersectAndUpdateRay(ray, sphere, nBefore)` returns
true, exactly one vertex `p` is appended to the path and exactly one hit record
to the hits (earlier entries, direction, wavelength and intensity unchanged);
the record has point `p` (the new last path vertex), normal
`sphere.getNormalAt(p)`, `refractiveIndexBefore = nBefore`, and
`refractiveIndexAfter` equal to the base index if `isEntrance` and 1.0
otherwise. -/
theorem intersect_hit_contents (sqrt : K → K) (ray : Ray K) (sphere : SphereLens K)
    (nBefore : K) (h : (intersectAndUpdateRay sqrt ray sphere nBefore).1 = true) :
    ∃ (p : Vec2 K) (hit : RayHit K),
      (intersectAndUpdateRay sqrt ray sphere nBefore).2.path = ray.path ++ [p] ∧
      (intersectAndUpdateRay sqrt ray sphere nBefore).2.hits = ray.hits ++ [hit] ∧
      (intersectAndUpdateRay sqrt ray sphere nBefore).2.direction = ray.direction ∧
      (intersectAndUpdateRay sqrt ray sphere nBefore).2.wavelength = ray.wavelength ∧
      (intersectAndUpdateRay sqrt ray sphere nBefore).2.intensity = ray.intensity ∧
      hit.point = p ∧
      hit.normal = sphere.getNormalAt sqrt p ∧
      hit.refractiveIndexBefore = nBefore ∧
      hit.refractiveIndexAfter = (if sphere.isEntrance then sphere.refractiveIndex else 1) := by
  rcases intersect_cases sqrt ray sphere nBefore with h0 | ⟨t, _, _, h1⟩
  · rw [h0] at h
    exact absurd h (by simp)
  · rw [h1]
    exact ⟨ray.pointAt t, _, rfl, rfl, rfl, rfl, rfl, rfl, rfl, rfl, rfl⟩

/-! ### Rays along the axis of `lensConvex` -/

theorem axis_discriminant (s : K) :
    discriminant (rayAlongX (⟨-s, 0⟩ : Vec2 K)) lensConvex = 20 * 20 := by
  simp only [discriminant, quadA, quadB, quadC, rayAlongX, lensConvex, Ray.getOrigin, dot,
    Vec2.sub, Vec2.add, List.getLast?_singleton]
  ring

theorem axis_root1 {sqrt : K → K} (hs : IsSqrt sqrt) (s : K) :
    root1 sqrt (rayAlongX (⟨-s, 0⟩ : Vec2 K)) lensConvex = s := by
  unfold root1
  rw [axis_discriminant, isSqrt_sq hs (by norm_num)]
  simp only [quadA, quadB, rayAlongX, lensConvex, Ray.getOrigin, dot,
    Vec2.sub, Vec2.add, List.getLast?_singleton]
  field_simp
  ring

theorem axis_root2 {sqrt : K → K} (hs : IsSqrt sqrt) (s : K) :
    root2 sqrt (rayAlongX (⟨-s, 0⟩ : Vec2 K)) lensConvex = s + 20 := by
  unfold root2
  rw [axis_discriminant, isSqrt_sq hs (by norm_num)]
  simp only [quadA, quadB, rayAlongX, lensConvex, Ray.getOrigin, dot,
    Vec2.sub, Vec2.add, List.getLast?_singleton]
  field_simp
  ring

theorem axis_pointAt (s t : K) :
    (rayAlongX (⟨-s, 0⟩ : Vec2 K)).pointAt t = ⟨-s + t, 0⟩ := by
  simp [Ray.pointAt, rayAlongX, Ray.getOrigin, Vec2.add, Vec2.smul]

theorem apex_normal {sqrt : K → K} (hs : IsSqrt sqrt) :
    (lensConvex : SphereLens K).getNormalAt sqrt ⟨0, 0⟩ = ⟨-1, 0⟩ := by
  have h10 : sqrt ((0 - (0 + 10)) * (0 - (0 + 10)) + (0 - (0 + 0)) * (0 - (0 + 0))) = (10 : K) := by
    have e : (0 - (0 + 10)) * (0 - (0 + 10)) + (0 - (0 + 0)) * (0 - (0 + 0))
        = (10 : K) * 10 := by ring
    rw [e]
    exact isSqrt_sq hs (by norm_num)
  simp only [SphereLens.getNormalAt, lensConvex, NodeWeft.normalize, length, dot, Vec2.sub,
    Vec2.add, h10]
  norm_num

/-- The ray that starts on the axis at (-s,0) and travels along (1,0) hits
`lensConvex` exactly when `s` exceeds the 0.0001 guard, and then at the apex. -/
theorem intersect_axis {sqrt : K → K} (hs : IsSqrt sqrt) (s n : K) :
    intersectAndUpdateRay sqrt (rayAlongX (⟨-s, 0⟩ : Vec2 K)) lensConvex n =
      if 1 / 10000 < s then
        (true, { path := [⟨-s, 0⟩, ⟨0, 0⟩], direction := ⟨1, 0⟩, wavelength := 550,
                 intensity := 1, hits := [⟨⟨0, 0⟩, ⟨-1, 0⟩, s, n, 3 / 2⟩] })
      else (false, rayAlongX ⟨-s, 0⟩) := by
  have hd : ¬ discriminant (rayAlongX (⟨-s, 0⟩ : Vec2 K)) lensConvex < 0 := by
    rw [axis_discriminant]; norm_num
  have side1 : sideOk (lensConvex : SphereLens K) ⟨-s + s, 0⟩ := by
    left
    simp only [lensConvex]
    norm_num
  have side2 : ¬ sideOk (lensConvex : SphereLens K) ⟨-s + (s + 20), 0⟩ := by
    simp only [sideOk, lensConvex]
    norm_num
  rw [intersect_eq, if_neg hd, axis_root1 hs, axis_root2 hs, axis_pointAt, axis_pointAt]
  by_cases h : 1 / 10000 < s
  · rw [if_pos ⟨h, side1⟩, if_pos h]
    have e : (⟨-s + s, 0⟩ : Vec2 K) = ⟨0, 0⟩ := by simp
    rw [e, apex_normal hs]
    simp only [Ray.addHit, rayAlongX, lensConvex, if_neg (not_lt.mpr (le_of_lt h))]
    simp
  · rw [if_neg (fun hh => h hh.1), if_neg (fun hh => side2 hh.2), if_neg h]

/-- The state `Ray(orig, (1,0))` built by the constructor is `rayAlongX orig`. -/
theorem ray_new_alongX {sqrt : K → K} (hs : IsSqrt sqrt) (orig : Vec2 K) :
    Ray.new sqrt orig ⟨1, 0⟩ 550 1 = rayAlongX orig := by
  unfold Ray.new rayAlongX
  rw [normalize_unit hs _ (by simp [dot])]

/-! ### The quadratic solved by `intersectAndUpdateRay` -/

/-- The squared distance of `pointAt t` from the circle centre, minus the
squared radius, is the quadratic `a t^2 + b t + c` of `intersectAndUpdateRay`. -/
theorem circle_quadratic (ray : Ray K) (sphere : SphereLens K) (t : K) :
    dot ((ray.pointAt t).sub sphere.circleCenter) ((ray.pointAt t).sub sphere.circleCenter)
      - sphere.radius * sphere.radius
      = quadA ray * t * t + quadB ray sphere * t + quadC ray sphere := by
  simp only [Ray.pointAt, SphereLens.circleCenter, quadA, quadB, quadC, dot, Vec2.sub, Vec2.add,
    Vec2.smul]
  ring

/-- A quadratic with negative discriminant has no root. -/
theorem quadratic_no_root (a b c t : K) (hd : b * b - 4 * a * c < 0) :
    a * t * t + b * t + c ≠ 0 := by
  intro h
  have h2 : (2 * a * t + b) * (2 * a * t + b) = b * b - 4 * a * c := by
    linear_combination (4 * a) * h
  have h3 := mul_self_nonneg (2 * a * t + b)
  rw [h2] at h3
  exact absurd hd (not_lt.mpr h3)

/-- With `a > 0` and `s` a square root of the discriminant, the roots of the
quadratic are exactly `(-b - s) / (2a)` and `(-b + s) / (2a)`. -/
theorem quadratic_roots (a b c s t : K) (ha : 0 < a) (hs : s * s = b * b - 4 * a * c) :
    a * t * t + b * t + c = 0 ↔ t = (-b - s) / (2 * a) ∨ t = (-b + s) / (2 * a) := by
  have h2a : (2 * a) ≠ 0 := by positivity
  constructor
  · intro h
    have hf : (2 * a * t + b + s) * (2 * a * t + b - s) = 0 := by
      linear_combination (4 * a) * h - hs
    rcases mul_eq_zero.mp hf with h1 | h1
    · left
      rw [eq_div_iff h2a]
      linear_combination h1
    · right
      rw [eq_div_iff h2a]
      linear_combination h1
  · intro h
    rcases h with h | h
    · rw [eq_div_iff h2a] at h
      have : (4 * a) * (a * t * t + b * t + c) = 0 := by
        linear_combination (2 * a * t + b - s) * h + hs
      rcases mul_eq_zero.mp this with h4 | h4
      · exact absurd h4 (by positivity)
      · exact h4
    · rw [eq_div_iff h2a] at h
      have : (4 * a) * (a * t * t + b * t + c) = 0 := by
        linear_combination (2 * a * t + b + s) * h + hs
      rcases mul_eq_zero.mp this with h4 | h4
      · exact absurd h4 (by positivity)
      · exact h4

/-- A non-zero direction gives a positive leading coefficient `a`. -/
theorem quadA_pos (ray : Ray K) (hdir : ray.direction ≠ ⟨0, 0⟩) : 0 < quadA ray := by
  unfold quadA dot
  by_contra hneg
  have h1 := mul_self_nonneg ray.direction.x
  have h2 := mul_self_nonneg ray.direction.y
  have hx : ray.direction.x * ray.direction.x = 0 := by linarith [not_lt.mp hneg]
  have hy : ray.direction.y * ray.direction.y = 0 := by linarith [not_lt.mp hneg]
  apply hdir
  cases hv : ray.direction with
  | mk x y =>
    rw [hv] at hx hy
    simp only [mul_self_eq_zero] at hx hy
    rw [hx, hy]

/-- With a non-zero direction and a non-negative discriminant, the parameters
whose point lies on the circle are exactly the two roots `t1`, `t2`. -/
theorem onCircle_iff {sqrt : K → K} (hs : IsSqrt sqrt) (ray : Ray K) (sphere : SphereLens K)
    (hdir : ray.direction ≠ ⟨0, 0⟩) (hd : ¬ discriminant ray sphere < 0) (t : K) :
    dot ((ray.pointAt t).sub sphere.circleCenter) ((ray.pointAt t).sub sphere.circleCenter)
      = sphere.radius * sphere.radius ↔
    t = root1 sqrt ray sphere ∨ t = root2 sqrt ray sphere := by
  have hq := circle_quadratic ray sphere t
  have hroot := (hs (discriminant ray sphere) (not_lt.mp hd)).2
  have hr := quadratic_roots (quadA ray) (quadB ray sphere) (quadC ray sphere)
    (sqrt (discriminant ray sphere)) t (quadA_pos ray hdir) hroot
  rw [← hq] at hr
  exact sub_eq_zero.symm.trans hr

/-- With a negative discriminant no parameter has its point on the circle. -/
theorem not_onCircle (ray : Ray K) (sphere : SphereLens K)
    (hd : discriminant ray sphere < 0) (t : K) :
    dot ((ray.pointAt t).sub sphere.circleCenter) ((ray.pointAt t).sub sphere.circleCenter)
      ≠ sphere.radius * sphere.radius := by
  intro h
  have hq := circle_quadratic ray sphere t
  rw [h, sub_self] at hq
  exact quadratic_no_root _ _ _ t hd hq.symm

/-- The first root is not larger than the second. -/
theorem root1_le_root2 {sqrt : K → K} (hs : IsSqrt sqrt) (ray : Ray K) (sphere : SphereLens K)
    (hdir : ray.direction ≠ ⟨0, 0⟩) (hd : ¬ discriminant ray sphere < 0) :
    root1 sqrt ray sphere ≤ root2 sqrt ray sphere := by
  have h0 := (hs (discriminant ray sphere) (not_lt.mp hd)).1
  have ha := quadA_pos ray hdir
  unfold root1 root2
  apply div_le_div_of_nonneg_right _ (by positivity)
  linarith

/-- Claim C3: for a ray with non-zero direction and a surface with non-zero
radius, call `t` valid when `t > 0.0001`, `pointAt(t)` lies on the circle of
centre `center + (radius, 0)`, and `pointAt(t)` passes the side test.  Then
`intersectAndUpdateRay` returns true iff some valid `t` exists, and when it
returns true the vertex appended to the path is `pointAt(tmin)` for the
smallest valid `tmin`. -/
theorem intersect_nearest_valid_hit (sqrt : K → K) (hs : IsSqrt sqrt) (ray : Ray K)
    (sphere : SphereLens K) (n : K) (hdir : ray.direction ≠ ⟨0, 0⟩)
    (_hrad : sphere.radius ≠ 0) :
    ((intersectAndUpdateRay sqrt ray sphere n).1 = true ↔ ∃ t, validT ray sphere t) ∧
    ((intersectAndUpdateRay sqrt ray sphere n).1 = true →
      ∃ tmin, validT ray sphere tmin ∧ (∀ t, validT ray sphere t → tmin ≤ t) ∧
        (intersectAndUpdateRay sqrt ray sphere n).2.path = ray.path ++ [ray.pointAt tmin]) := by
  rw [intersect_eq]
  by_cases hd : discriminant ray sphere < 0
  · rw [if_pos hd]
    have hnone : ¬ ∃ t, validT ray sphere t := fun ⟨t, ht⟩ => not_onCircle ray sphere hd t ht.2.1
    exact ⟨⟨fun h => absurd h (by simp), fun h => absurd h hnone⟩, fun h => absurd h (by simp)⟩
  · rw [if_neg hd]
    have hon := onCircle_iff hs ray sphere hdir hd
    have hle := root1_le_root2 hs ray sphere hdir hd
    by_cases c1 : 1 / 10000 < root1 sqrt ray sphere ∧
        sideOk sphere (ray.pointAt (root1 sqrt ray sphere))
    · rw [if_pos c1]
      have hv : validT ray sphere (root1 sqrt ray sphere) :=
        ⟨c1.1, (hon _).2 (Or.inl rfl), c1.2⟩
      have hmin : ∀ t, validT ray sphere t → root1 sqrt ray sphere ≤ t := by
        intro t ht
        rcases (hon t).1 ht.2.1 with h | h
        · exact le_of_eq h.symm
        · rw [h]; exact hle
      exact ⟨⟨fun _ => ⟨_, hv⟩, fun _ => rfl⟩, fun _ => ⟨_, hv, hmin, rfl⟩⟩
    · rw [if_neg c1]
      by_cases c2 : 1 / 10000 < root2 sqrt ray sphere ∧
          sideOk sphere (ray.pointAt (root2 sqrt ray sphere))
      · rw [if_pos c2]
        have hv : validT ray sphere (root2 sqrt ray sphere) :=
          ⟨c2.1, (hon _).2 (Or.inr rfl), c2.2⟩
        have hmin : ∀ t, validT ray sphere t → root2 sqrt ray sphere ≤ t := by
          intro t ht
          rcases (hon t).1 ht.2.1 with h | h
          · exact absurd ⟨h ▸ ht.1, h ▸ ht.2.2⟩ c1
          · exact le_of_eq h.symm
        exact ⟨⟨fun _ => ⟨_, hv⟩, fun _ => rfl⟩, fun _ => ⟨_, hv, hmin, rfl⟩⟩
      · rw [if_neg c2]
        have hnone : ¬ ∃ t, validT ray sphere t := by
          rintro ⟨t, ht⟩
          rcases (hon t).1 ht.2.1 with h | h
          · exact c1 ⟨h ▸ ht.1, h ▸ ht.2.2⟩
          · exact c2 ⟨h ▸ ht.1, h ▸ ht.2.2⟩
        exact ⟨⟨fun h => absurd h (by simp), fun h => absurd h hnone⟩,
          fun h => absurd h (by simp)⟩

/-! ### A hit followed by total internal reflection -/

theorem tilted_discriminant :
    discriminant (rayInDense : Ray K) lensTilted = 12 * 12 := by
  simp only [discriminant, quadA, quadB, quadC, rayInDense, lensTilted, Ray.getOrigin, dot,
    Vec2.sub, Vec2.add, List.getLast?_cons_cons, List.getLast?_singleton]
  ring

theorem tilted_root1 {sqrt : K → K} (hs : IsSqrt sqrt) :
    root1 sqrt (rayInDense : Ray K) lensTilted = 4 := by
  unfold root1
  rw [tilted_discriminant, isSqrt_sq hs (by norm_num)]
  simp only [quadA, quadB, rayInDense, lensTilted, Ray.getOrigin, dot,
    Vec2.sub, Vec2.add, List.getLast?_cons_cons, List.getLast?_singleton]
  norm_num

theorem tilted_pointAt (t : K) : (rayInDense : Ray K).pointAt t = ⟨t, 0⟩ := by
  simp [Ray.pointAt, rayInDense, Ray.getOrigin, Vec2.add, Vec2.smul]

theorem tilted_normal {sqrt : K → K} (hs : IsSqrt sqrt) :
    (lensTilted : SphereLens K).getNormalAt sqrt ⟨4, 0⟩ = ⟨-3 / 5, -4 / 5⟩ := by
  have h10 : sqrt ((4 - (0 + 10)) * (4 - (0 + 10)) + (0 - (8 + 0)) * (0 - (8 + 0))) = (10 : K) := by
    have e : (4 - (0 + 10)) * (4 - (0 + 10)) + (0 - (8 + 0)) * (0 - (8 + 0))
        = (10 : K) * 10 := by ring
    rw [e]
    exact isSqrt_sq hs (by norm_num)
  simp only [SphereLens.getNormalAt, lensTilted, NodeWeft.normalize, length, dot, Vec2.sub,
    Vec2.add, h10]
  norm_num

/-- The ray `rayInDense` hits `lensTilted` at (4,0). -/
theorem intersect_tilted {sqrt : K → K} (hs : IsSqrt sqrt) (n : K) :
    intersectAndUpdateRay sqrt (rayInDense : Ray K) lensTilted n = (true, rayInDenseHit n) := by
  have hd : ¬ discriminant (rayInDense : Ray K) lensTilted < 0 := by
    rw [tilted_discriminant]; norm_num
  have side1 : sideOk (lensTilted : SphereLens K) ⟨4, 0⟩ := by
    left
    simp only [lensTilted]
    norm_num
  rw [intersect_eq, if_neg hd, tilted_root1 hs, tilted_pointAt,
    if_pos ⟨by norm_num, side1⟩, tilted_normal hs]
  simp only [Ray.addHit, rayInDense, rayInDenseHit, lensTilted]
  norm_num

/-- The refraction of `rayInDenseHit` at `lensTilted` is a total internal
reflection: `sinT2 = 64/25`. -/
theorem refract_tilted (sqrt : K → K) (n : K) :
    refractRay sqrt (rayInDenseHit n : Ray K) lensTilted = (false, rayInDenseHit n) := by
  have hsin : 1 < refractSinT2 (rayInDenseHit n : Ray K) lensTilted
      ⟨⟨4, 0⟩, ⟨-3 / 5, -4 / 5⟩, 4, n, 1⟩ := by
    norm_num [refractSinT2, refractN1, refractN2, refractCosI, rayInDenseHit, lensTilted, dot,
      SphereLens.getRefractiveIndexAtWavelength]
  rw [refract_eq sqrt (rayInDenseHit n) lensTilted ⟨⟨4, 0⟩, ⟨-3 / 5, -4 / 5⟩, 4, n, 1⟩ rfl,
    if_pos hsin]

/-! ### Instances on the axis of `lensConvex` -/

/-- The instance of claim C3 for the ray from (-5,0) along (1,0) and
`lensConvex`: direction (1,0) is non-zero and the radius is 10. -/
theorem intersect_nearest_valid_hit_witness :
    ((intersectAndUpdateRay Real.sqrt (rayAlongX ⟨-5, 0⟩ : Ray ℝ) lensConvex 1).1 = true ↔
      ∃ t, validT (rayAlongX ⟨-5, 0⟩ : Ray ℝ) lensConvex t) ∧
    ((intersectAndUpdateRay Real.sqrt (rayAlongX ⟨-5, 0⟩ : Ray ℝ) lensConvex 1).1 = true →
      ∃ tmin, validT (rayAlongX ⟨-5, 0⟩ : Ray ℝ) lensConvex tmin ∧
        (∀ t, validT (rayAlongX ⟨-5, 0⟩ : Ray ℝ) lensConvex t → tmin ≤ t) ∧
        (intersectAndUpdateRay Real.sqrt (rayAlongX ⟨-5, 0⟩ : Ray ℝ) lensConvex 1).2.path
          = (rayAlongX ⟨-5, 0⟩ : Ray ℝ).path ++ [(rayAlongX ⟨-5, 0⟩ : Ray ℝ).pointAt tmin]) :=
  intersect_nearest_valid_hit Real.sqrt real_isSqrt (rayAlongX ⟨-5, 0⟩ : Ray ℝ) lensConvex 1
    (by
      intro h
      have hx := congrArg Vec2.x h
      simp [rayAlongX] at hx)
    (by norm_num [lensConvex])

/-- The instance of claim C8 for the ray from (-5,0) along (1,0) and
`lensConvex`, which is hit at the apex. -/
theorem intersect_hit_contents_witness :
    (intersectAndUpdateRay Real.sqrt (rayAlongX ⟨-5, 0⟩ : Ray ℝ) lensConvex 1).1 = true ∧
    ∃ (p : Vec2 ℝ) (hit : RayHit ℝ),
      (intersectAndUpdateRay Real.sqrt (rayAlongX ⟨-5, 0⟩ : Ray ℝ) lensConvex 1).2.path
        = (rayAlongX ⟨-5, 0⟩ : Ray ℝ).path ++ [p] ∧
      (intersectAndUpdateRay Real.sqrt (rayAlongX ⟨-5, 0⟩ : Ray ℝ) lensConvex 1).2.hits
        = (rayAlongX ⟨-5, 0⟩ : Ray ℝ).hits ++ [hit] ∧
      (intersectAndUpdateRay Real.sqrt (rayAlongX ⟨-5, 0⟩ : Ray ℝ) lensConvex 1).2.direction
        = (rayAlongX ⟨-5, 0⟩ : Ray ℝ).direction ∧
      (intersectAndUpdateRay Real.sqrt (rayAlongX ⟨-5, 0⟩ : Ray ℝ) lensConvex 1).2.wavelength
        = (rayAlongX ⟨-5, 0⟩ : Ray ℝ).wavelength ∧
      (intersectAndUpdateRay Real.sqrt (rayAlongX ⟨-5, 0⟩ : Ray ℝ) lensConvex 1).2.intensity
        = (rayAlongX ⟨-5, 0⟩ : Ray ℝ).intensity ∧
      hit.point = p ∧
      hit.normal = (lensConvex : SphereLens ℝ).getNormalAt Real.sqrt p ∧
      hit.refractiveIndexBefore = 1 ∧
      hit.refractiveIndexAfter =
        (if (lensConvex : SphereLens ℝ).isEntrance then (lensConvex : SphereLens ℝ).refractiveIndex
         else 1) := by
  have h : (intersectAndUpdateRay Real.sqrt (rayAlongX ⟨-5, 0⟩ : Ray ℝ) lensConvex 1).1 = true := by
    rw [intersect_axis real_isSqrt (5 : ℝ) 1, if_pos (by norm_num)]
  exact ⟨h, intersect_hit_contents Real.sqrt (rayAlongX ⟨-5, 0⟩ : Ray ℝ) lensConvex 1 h⟩

/-! ### The end-to-end scenario -/

/-- Claim C7 as stated fails: for `Ray((0,0), (1,0))` and the entrance surface
centre (0,0), radius 10, index 1.5, `intersectAndUpdateRay(ray, lens, 1.0)`
returns false (root `t1 = 0` fails the 0.0001 guard, root `t2 = 20` gives
(20,0), which fails the side test `x < 10`). -/
theorem end_to_end_apex_start_no_hit :
    (intersectAndUpdateRay Real.sqrt (Ray.new Real.sqrt (⟨0, 0⟩ : Vec2 ℝ) ⟨1, 0⟩ 550 1)
      lensConvex 1).1 = false := by
  have h := intersect_axis real_isSqrt (0 : ℝ) 1
  rw [neg_zero, if_neg (by norm_num)] at h
  rw [ray_new_alongX real_isSqrt, h]

/-- Claim C7, amended: for `Ray((0,0), (1,0))`, which starts on the apex of the
entrance surface centre (0,0), radius 10, index 1.5, `intersectAndUpdateRay`
returns false and leaves the ray unchanged, and the following `refractRay`
returns false.  For the same ray started in front of the apex, at (-s,0) with
`s > 0.0001`, `intersectAndUpdateRay` returns true and records the hit point
(0,0), on the correct side (`0 < center.x + radius`), and the following
`refractRay` returns true with direction (1,0), which satisfies Snell's law
for `n1 = 1.0`, `n2 = 1.5` against the hit normal (-1,0). -/
theorem end_to_end_scenario (sqrt : K → K) (hs : IsSqrt sqrt) (s : K)
    (hpos : 1 / 10000 < s) :
    intersectAndUpdateRay sqrt (Ray.new sqrt ⟨0, 0⟩ ⟨1, 0⟩ 550 1) lensConvex 1
      = (false, Ray.new sqrt ⟨0, 0⟩ ⟨1, 0⟩ 550 1) ∧
    (refractRay sqrt
      (intersectAndUpdateRay sqrt (Ray.new sqrt ⟨0, 0⟩ ⟨1, 0⟩ 550 1) lensConvex 1).2
      lensConvex).1 = false ∧
    (intersectAndUpdateRay sqrt (Ray.new sqrt ⟨-s, 0⟩ ⟨1, 0⟩ 550 1) lensConvex 1).1 = true ∧
    (intersectAndUpdateRay sqrt (Ray.new sqrt ⟨-s, 0⟩ ⟨1, 0⟩ 550 1) lensConvex 1).2.hits
      = [⟨⟨0, 0⟩, ⟨-1, 0⟩, s, 1, 3 / 2⟩] ∧
    (0 : K) < (lensConvex : SphereLens K).center.x + (lensConvex : SphereLens K).radius ∧
    (refractRay sqrt
      (intersectAndUpdateRay sqrt (Ray.new sqrt ⟨-s, 0⟩ ⟨1, 0⟩ 550 1) lensConvex 1).2
      lensConvex).1 = true ∧
    (refractRay sqrt
      (intersectAndUpdateRay sqrt (Ray.new sqrt ⟨-s, 0⟩ ⟨1, 0⟩ 550 1) lensConvex 1).2
      lensConvex).2.direction = ⟨1, 0⟩ ∧
    (3 / 2 : K) * cross (refractRay sqrt
      (intersectAndUpdateRay sqrt (Ray.new sqrt ⟨-s, 0⟩ ⟨1, 0⟩ 550 1) lensConvex 1).2
      lensConvex).2.direction ⟨-1, 0⟩ = 1 * cross (⟨1, 0⟩ : Vec2 K) ⟨-1, 0⟩ := by
  have h0 := intersect_axis hs (0 : K) 1
  rw [neg_zero, if_neg (by norm_num)] at h0
  have h1 := intersect_axis hs s 1
  rw [if_pos hpos] at h1
  have hr := refract_parallel hs
    ({ path := [⟨-s, 0⟩, ⟨0, 0⟩], direction := ⟨1, 0⟩, wavelength := 550, intensity := 1,
       hits := [⟨⟨0, 0⟩, ⟨-1, 0⟩, s, 1, 3 / 2⟩] } : Ray K) lensConvex
    ⟨⟨0, 0⟩, ⟨-1, 0⟩, s, 1, 3 / 2⟩ rfl (by simp [dot]) (Or.inr (by simp [Vec2.neg]))
  rw [ray_new_alongX hs, ray_new_alongX hs, h0, h1]
  rw [hr]
  refine ⟨rfl, ?_, rfl, rfl, ?_, rfl, rfl, ?_⟩
  · rw [refract_none sqrt (rayAlongX ⟨0, 0⟩) lensConvex rfl]
  · simp only [lensConvex]; norm_num
  · simp only [cross]
    ring

/-- The instance of amended claim C7 for the start point (-5,0). -/
theorem end_to_end_scenario_witness :
    (1 / 10000 : ℝ) < 5 ∧
    (intersectAndUpdateRay Real.sqrt (Ray.new Real.sqrt (⟨-5, 0⟩ : Vec2 ℝ) ⟨1, 0⟩ 550 1)
      lensConvex 1).1 = true ∧
    (refractRay Real.sqrt
      (intersectAndUpdateRay Real.sqrt (Ray.new Real.sqrt (⟨-5, 0⟩ : Vec2 ℝ) ⟨1, 0⟩ 550 1)
        lensConvex 1).2 lensConvex).2.direction = ⟨1, 0⟩ := by
  have h := end_to_end_scenario Real.sqrt real_isSqrt (5 : ℝ) (by norm_num)
  exact ⟨by norm_num, h.2.2.1, h.2.2.2.2.2.2.1⟩

/-! ### Trace bookkeeping of `RefractNode::bake` -/

/-- The call `intersectAndUpdateRay` never changes the wavelength. -/
theorem intersect_wavelength (sqrt : K → K) (ray : Ray K) (sphere : SphereLens K) (n : K) :
    (intersectAndUpdateRay sqrt ray sphere n).2.wavelength = ray.wavelength := by
  rcases intersect_cases sqrt ray sphere n with h0 | ⟨t, _, _, h1⟩
  · rw [h0]
  · rw [h1]; rfl

/-- Claim C10: in the per-ray loop over the lens sequence the carried
`refractiveIndexBefore` starts at 1.0 and each surface is processed by one step
from the state left by the surfaces before it.  In a step from any state
`(ray, index)`: if `intersectAndUpdateRay` reports a hit, the carried index
becomes the surface's wavelength-adjusted index (entrance) or 1.0 (exit),
whatever `refractRay` returned, total internal reflection included, and the ray
is the one left by `refractRay`; if it reports no hit, the ray and the carried
index are both unchanged. -/
theorem trace_bookkeeping (sqrt : K → K) (ray : Ray K) (lenses : List (SphereLens K))
    (l : SphereLens K) (st : Ray K × K) :
    traceRay sqrt ray [] = (ray, 1) ∧
    traceRay sqrt ray (lenses ++ [l]) = traceSurface sqrt (traceRay sqrt ray lenses) l ∧
    ((intersectAndUpdateRay sqrt st.1 l st.2).1 = true →
      traceSurface sqrt st l =
        ((refractRay sqrt (intersectAndUpdateRay sqrt st.1 l st.2).2 l).2,
         if l.isEntrance then l.getRefractiveIndexAtWavelength st.1.wavelength else 1)) ∧
    ((intersectAndUpdateRay sqrt st.1 l st.2).1 = false → traceSurface sqrt st l = st) := by
  refine ⟨rfl, ?_, ?_, ?_⟩
  · unfold traceRay
    rw [List.foldl_append]
    rfl
  · intro h
    have hw : (refractRay sqrt (intersectAndUpdateRay sqrt st.1 l st.2).2 l).2.wavelength
        = st.1.wavelength := by
      rw [(refract_frame sqrt _ l).2.2.1, intersect_wavelength]
    unfold traceSurface
    simp only [h, if_true, hw]
    split_ifs <;> rfl
  · intro h
    have hu : (intersectAndUpdateRay sqrt st.1 l st.2).2 = st.1 := by
      rcases intersect_cases sqrt st.1 l st.2 with h0 | ⟨t, _, _, h1⟩
      · rw [h0]
      · rw [h1] at h
        exact absurd h (by simp)
    unfold traceSurface
    simp only [h, hu, Bool.false_eq_true, if_false]

/-- The instances of claim C10: `rayInDense` carrying index 2 hits the exit
surface `lensTilted`, `refractRay` reports total internal reflection, and the
carried index still becomes 1.0; the ray at (0,20) along (1,0) misses
`lensConvex`, and the ray and the carried index 1.0 stay as they were. -/
theorem trace_bookkeeping_witness :
    (intersectAndUpdateRay Real.sqrt (rayInDense : Ray ℝ) lensTilted 2).1 = true ∧
    (refractRay Real.sqrt (intersectAndUpdateRay Real.sqrt (rayInDense : Ray ℝ) lensTilted 2).2
      lensTilted).1 = false ∧
    traceSurface Real.sqrt ((rayInDense : Ray ℝ), 2) lensTilted = (rayInDenseHit 2, 1) ∧
    (intersectAndUpdateRay Real.sqrt (rayAlongX ⟨0, 20⟩ : Ray ℝ) lensConvex 1).1 = false ∧
    traceSurface Real.sqrt ((rayAlongX ⟨0, 20⟩ : Ray ℝ), 1) lensConvex
      = (rayAlongX ⟨0, 20⟩, 1) := by
  have hhit : (intersectAndUpdateRay Real.sqrt (rayInDense : Ray ℝ) lensTilted 2).1 = true := by
    rw [intersect_tilted real_isSqrt]
  have hmiss : (intersectAndUpdateRay Real.sqrt (rayAlongX ⟨0, 20⟩ : Ray ℝ) lensConvex 1).1
      = false := by
    rw [intersect_eq, if_pos]
    norm_num [discriminant, quadA, quadB, quadC, rayAlongX, lensConvex, Ray.getOrigin, dot,
      Vec2.sub, Vec2.add]
  have h1 := (trace_bookkeeping Real.sqrt (rayInDense : Ray ℝ) [] lensTilted
    ((rayInDense : Ray ℝ), 2)).2.2.1 hhit
  have h2 := (trace_bookkeeping Real.sqrt (rayAlongX ⟨0, 20⟩ : Ray ℝ) [] lensConvex
    ((rayAlongX ⟨0, 20⟩ : Ray ℝ), 1)).2.2.2 hmiss
  refine ⟨hhit, ?_, ?_, hmiss, h2⟩
  · rw [intersect_tilted real_isSqrt, refract_tilted]
  · rw [h1]
    show ((refractRay Real.sqrt (intersectAndUpdateRay Real.sqrt (rayInDense : Ray ℝ)
      lensTilted 2).2 lensTilted).2, (1 : ℝ)) = _
    rw [intersect_tilted real_isSqrt, refract_tilted]

/-! ### Cauchy dispersion and the degenerate radius -/

/-- Claim C15: `getRefractiveIndexAtWavelength(w)` equals
`refractiveIndex + dispersiveCoefficient / (w/1000)^2` when `w > 0` and
`refractiveIndex` when `w <= 0`; when `dispersiveCoefficient = 0` it returns
exactly `refractiveIndex` for every wavelength. -/
theorem cauchy_model (s : SphereLens K) (w : K) :
    (0 < w → s.getRefractiveIndexAtWavelength w
      = s.refractiveIndex + s.dispersiveCoefficient / (w / 1000) ^ 2) ∧
    (w ≤ 0 → s.getRefractiveIndexAtWavelength w = s.refractiveIndex) ∧
    (s.dispersiveCoefficient = 0 → s.getRefractiveIndexAtWavelength w = s.refractiveIndex) := by
  refine ⟨?_, ?_, ?_⟩
  · intro hw
    unfold SphereLens.getRefractiveIndexAtWavelength
    rw [if_neg (not_le.mpr hw), pow_two]
  · intro hw
    unfold SphereLens.getRefractiveIndexAtWavelength
    rw [if_pos hw]
  · intro hB
    unfold SphereLens.getRefractiveIndexAtWavelength
    by_cases hw : w ≤ 0
    · rw [if_pos hw]
    · rw [if_neg hw, hB]
      simp only [zero_div, add_zero]

/-- The instances of claim C15: `lensDispersive` at 550 nm gives 1.51 and at
-1 nm gives the base index 1.5; `lensConvex` (B = 0) at 550 nm gives 1.5. -/
theorem cauchy_model_witness :
    (lensDispersive : SphereLens ℝ).getRefractiveIndexAtWavelength 550 = 151 / 100 ∧
    (lensDispersive : SphereLens ℝ).getRefractiveIndexAtWavelength (-1) = 3 / 2 ∧
    (lensConvex : SphereLens ℝ).getRefractiveIndexAtWavelength 550 = 3 / 2 := by
  refine ⟨?_, ?_, ?_⟩
  · rw [(cauchy_model (lensDispersive : SphereLens ℝ) 550).1 (by norm_num)]
    norm_num [lensDispersive]
  · rw [(cauchy_model (lensDispersive : SphereLens ℝ) (-1)).2.1 (by norm_num)]
    rfl
  · rw [(cauchy_model (lensConvex : SphereLens ℝ) 550).2.2 rfl]
    rfl

/-- A surface of radius zero fails the side test at every point. -/
theorem sideOk_radius_zero (sphere : SphereLens K) (h : sphere.radius = 0) (p : Vec2 K) :
    ¬ sideOk sphere p := by
  unfold sideOk
  rw [h]
  rintro (⟨h1, _⟩ | ⟨h1, _⟩) <;> exact lt_irrefl 0 h1

/-- Claim C20: if `sphere.radius = 0` then `intersectAndUpdateRay` returns false
and leaves the ray unchanged, for every ray and every index argument; the call
ends before `getNormalAt` and `addHit`. -/
theorem intersect_zero_radius (sqrt : K → K) (ray : Ray K) (sphere : SphereLens K) (n : K)
    (h : sphere.radius = 0) :
    (intersectAndUpdateRay sqrt ray sphere n).1 = false ∧
    (intersectAndUpdateRay sqrt ray sphere n).2 = ray := by
  have hside := sideOk_radius_zero sphere h
  rw [intersect_eq]
  by_cases hd : discriminant ray sphere < 0
  · rw [if_pos hd]
    exact ⟨rfl, rfl⟩
  · rw [if_neg hd, if_neg (fun hh => hside _ hh.2), if_neg (fun hh => hside _ hh.2)]
    exact ⟨rfl, rfl⟩

/-- The instance of claim C20 for the ray from (-5,0) along (1,0), which would
reach the point (0,0) of the radius-zero surface `lensFlat`. -/
theorem intersect_zero_radius_witness :
    (lensFlat : SphereLens ℝ).radius = 0 ∧
    (intersectAndUpdateRay Real.sqrt (rayAlongX ⟨-5, 0⟩ : Ray ℝ) lensFlat 1).1 = false ∧
    (intersectAndUpdateRay Real.sqrt (rayAlongX ⟨-5, 0⟩ : Ray ℝ) lensFlat 1).2
      = rayAlongX ⟨-5, 0⟩ :=
  ⟨rfl, intersect_zero_radius Real.sqrt (rayAlongX ⟨-5, 0⟩ : Ray ℝ) lensFlat 1 rfl⟩

/-! ### Fresnel reflectance at normal incidence -/

/-- Claim C16: for unit vectors `incident`, `normal` with
`|dot(incident, normal)| = 1` and `n1, n2 > 0`,
`fresnelReflectance(incident, normal, n1, n2) = ((n1 - n2) / (n1 + n2))^2`. -/
theorem fresnel_normal_incidence (sqrt : K → K) (hs : IsSqrt sqrt) (incident normal : Vec2 K)
    (n1 n2 : K) (_hi : dot incident incident = 1) (_hn : dot normal normal = 1)
    (hcos : |dot incident normal| = 1) (hn1 : 0 < n1) (hn2 : 0 < n2) :
    fresnelReflectance sqrt incident normal n1 n2 = ((n1 - n2) / (n1 + n2)) ^ 2 := by
  unfold fresnelReflectance
  simp only [hcos, mul_one, sub_self, mul_zero, sub_zero, isSqrt_one hs]
  rw [if_neg (not_lt.mpr zero_le_one)]
  have hsum : n1 + n2 ≠ 0 := ne_of_gt (add_pos hn1 hn2)
  field_simp
  ring

/-- The instance of claim C16 for incidence along (1,0) on the normal (-1,0)
with `n1 = 1.0`, `n2 = 1.5`: the reflectance is 0.04. -/
theorem fresnel_normal_incidence_witness :
    fresnelReflectance Real.sqrt (⟨1, 0⟩ : Vec2 ℝ) ⟨-1, 0⟩ 1 (3 / 2) = 4 / 100 := by
  rw [fresnel_normal_incidence Real.sqrt real_isSqrt (⟨1, 0⟩ : Vec2 ℝ) ⟨-1, 0⟩ 1 (3 / 2)
    (by norm_num [dot]) (by norm_num [dot]) (by norm_num [dot]) (by norm_num) (by norm_num)]
  norm_num

/-! ### Wavelength to colour -/

theorem real_powUnit : PowUnit Real.rpow :=
  fun _ y hx hx1 hy => ⟨Real.rpow_nonneg hx y, Real.rpow_le_one hx hx1 hy⟩

/-- Inside [380, 700] the colour is the three clamped, truncated channels. -/
theorem getWavelengthColor_eq [FloorRing K] (pow : K → K → K) (ray : Ray K)
    (h : ¬ (ray.wavelength < 380 ∨ ray.wavelength > 700)) :
    ray.getWavelengthColor pow =
      ⟨⌊max 0 (min 255
          (gammaChannel pow ray.wavelength (spectrumRGB ray.wavelength).1 * 255
            * ray.intensity))⌋₊,
       ⌊max 0 (min 255
          (gammaChannel pow ray.wavelength (spectrumRGB ray.wavelength).2.1 * 255
            * ray.intensity))⌋₊,
       ⌊max 0 (min 255
          (gammaChannel pow ray.wavelength (spectrumRGB ray.wavelength).2.2 * 255
            * ray.intensity))⌋₊⟩ := by
  unfold Ray.getWavelengthColor
  simp only [if_neg h]
  rfl

/-- Every ramp value is at most 1. -/
theorem spectrumRGB_le_one (wl : K) :
    (spectrumRGB wl).1 ≤ 1 ∧ (spectrumRGB wl).2.1 ≤ 1 ∧ (spectrumRGB wl).2.2 ≤ 1 := by
  unfold spectrumRGB
  split_ifs with h1 h2 h3 h4 h5 h6
  · refine ⟨?_, zero_le_one, le_refl 1⟩
    show -(wl - 440) / (440 - 380) ≤ 1
    rw [div_le_one (by norm_num)]
    linarith [h1.1]
  · refine ⟨zero_le_one, ?_, le_refl 1⟩
    show (wl - 440) / (490 - 440) ≤ 1
    rw [div_le_one (by norm_num)]
    linarith [h2.2]
  · refine ⟨zero_le_one, le_refl 1, ?_⟩
    show -(wl - 510) / (510 - 490) ≤ 1
    rw [div_le_one (by norm_num)]
    linarith [h3.1]
  · refine ⟨?_, le_refl 1, zero_le_one⟩
    show (wl - 510) / (580 - 510) ≤ 1
    rw [div_le_one (by norm_num)]
    linarith [h4.2]
  · refine ⟨le_refl 1, ?_, zero_le_one⟩
    show -(wl - 645) / (645 - 580) ≤ 1
    rw [div_le_one (by norm_num)]
    linarith [h5.1]
  · exact ⟨le_refl 1, zero_le_one, zero_le_one⟩
  · exact ⟨zero_le_one, zero_le_one, zero_le_one⟩

/-- The luminosity factor lies in [0, 1]. -/
theorem luminosityFactor_bounds (wl : K) :
    0 ≤ luminosityFactor wl ∧ luminosityFactor wl ≤ 1 := by
  unfold luminosityFactor
  split_ifs <;> constructor <;> norm_num

/-- A gamma-corrected, attenuated channel lies in [0, 1] when the ramp value is
at most 1. -/
theorem gammaChannel_bounds {pow : K → K → K} (hpow : PowUnit pow) (wl c : K) (hc : c ≤ 1) :
    0 ≤ gammaChannel pow wl c ∧ gammaChannel pow wl c ≤ 1 := by
  obtain ⟨hp0, hp1⟩ := hpow (max 0 c) (1 / (8 / 10)) (le_max_left 0 c)
    (max_le zero_le_one hc) (by norm_num)
  obtain ⟨hf0, hf1⟩ := luminosityFactor_bounds wl
  unfold gammaChannel
  constructor
  · exact mul_nonneg hp0 hf0
  · nlinarith

/-- A clamped value truncates to at most 255. -/
theorem floor_clamp_le [FloorRing K] (x : K) : ⌊max 0 (min 255 x)⌋₊ ≤ 255 := by
  apply Nat.floor_le_of_le
  exact max_le (by norm_num) (by exact_mod_cast min_le_left (255 : K) x)

/-- Claim C13: for a ray whose wavelength is below 380 or above 700, and every
intensity, `getWavelengthColor` returns exactly the colour (0, 0, 0). -/
theorem nonvisible_is_black [FloorRing K] (pow : K → K → K) (ray : Ray K)
    (h : ray.wavelength < 380 ∨ ray.wavelength > 700) :
    ray.getWavelengthColor pow = ⟨0, 0, 0⟩ := by
  unfold Ray.getWavelengthColor
  simp only [if_pos h]

/-- The instances of claim C13 for 350 nm and 750 nm. -/
theorem nonvisible_is_black_witness :
    (rayColour (350 : ℝ) 1).getWavelengthColor Real.rpow = ⟨0, 0, 0⟩ ∧
    (rayColour (750 : ℝ) (1 / 2)).getWavelengthColor Real.rpow = ⟨0, 0, 0⟩ :=
  ⟨nonvisible_is_black Real.rpow (rayColour (350 : ℝ) 1)
      (Or.inl (by norm_num [rayColour])),
   nonvisible_is_black Real.rpow (rayColour (750 : ℝ) (1 / 2))
      (Or.inr (by norm_num [rayColour]))⟩

/-- At 600 nm the red channel value after gamma correction and attenuation
is 1. -/
theorem red_channel_600 : gammaChannel Real.rpow (600 : ℝ) (spectrumRGB (600 : ℝ)).1 = 1 := by
  have hs : (spectrumRGB (600 : ℝ)).1 = 1 := by
    unfold spectrumRGB
    norm_num
  have hf : luminosityFactor (600 : ℝ) = 1 := by
    unfold luminosityFactor
    norm_num
  unfold gammaChannel
  rw [hs, hf, max_eq_right zero_le_one, mul_one]
  exact Real.one_rpow _

/-- Claim C14 as stated fails: at 600 nm and intensity 0.999 the red channel
value is `c = 1`, `clamp(c * 255 * 0.999, 0, 255) = 254.745`, whose nearest
integer is 255, and `getWavelengthColor` returns the red channel 254. -/
theorem colour_channel_not_nearest :
    ((rayColour (600 : ℝ) (999 / 1000)).getWavelengthColor Real.rpow).r = 254 ∧
    round (max 0 (min 255
      (gammaChannel Real.rpow (600 : ℝ) (spectrumRGB (600 : ℝ)).1 * 255 * (999 / 1000))))
      = 255 := by
  constructor
  · rw [getWavelengthColor_eq Real.rpow _ (by norm_num [rayColour])]
    show ⌊max 0 (min 255
      (gammaChannel Real.rpow (600 : ℝ) (spectrumRGB (600 : ℝ)).1 * 255 * (999 / 1000)))⌋₊ = 254
    rw [red_channel_600, Nat.floor_eq_iff (le_max_left _ _)]
    norm_num
  · rw [red_channel_600, round_eq, Int.floor_eq_iff]
    norm_num

/-- Claim C14, amended: for every wavelength in [380, 700] and every intensity,
each channel returned by `getWavelengthColor` equals
`clamp(c * 255 * intensity, 0, 255)` truncated to its integer part (not
rounded to nearest), where `c` is that channel's gamma-corrected,
luminosity-attenuated value; `c` lies in [0, 1] and the channel is at most
255. -/
theorem colour_channel_truncation [FloorRing K] (pow : K → K → K) (hpow : PowUnit pow)
    (ray : Ray K) (h1 : 380 ≤ ray.wavelength) (h2 : ray.wavelength ≤ 700) :
    ((ray.getWavelengthColor pow).r = ⌊max 0 (min 255
        (gammaChannel pow ray.wavelength (spectrumRGB ray.wavelength).1 * 255
          * ray.intensity))⌋₊ ∧
      0 ≤ gammaChannel pow ray.wavelength (spectrumRGB ray.wavelength).1 ∧
      gammaChannel pow ray.wavelength (spectrumRGB ray.wavelength).1 ≤ 1 ∧
      (ray.getWavelengthColor pow).r ≤ 255) ∧
    ((ray.getWavelengthColor pow).g = ⌊max 0 (min 255
        (gammaChannel pow ray.wavelength (spectrumRGB ray.wavelength).2.1 * 255
          * ray.intensity))⌋₊ ∧
      0 ≤ gammaChannel pow ray.wavelength (spectrumRGB ray.wavelength).2.1 ∧
      gammaChannel pow ray.wavelength (spectrumRGB ray.wavelength).2.1 ≤ 1 ∧
      (ray.getWavelengthColor pow).g ≤ 255) ∧
    ((ray.getWavelengthColor pow).b = ⌊max 0 (min 255
        (gammaChannel pow ray.wavelength (spectrumRGB ray.wavelength).2.2 * 255
          * ray.intensity))⌋₊ ∧
      0 ≤ gammaChannel pow ray.wavelength (spectrumRGB ray.wavelength).2.2 ∧
      gammaChannel pow ray.wavelength (spectrumRGB ray.wavelength).2.2 ≤ 1 ∧
      (ray.getWavelengthColor pow).b ≤ 255) := by
  have hin : ¬ (ray.wavelength < 380 ∨ ray.wavelength > 700) := by
    rintro (h | h)
    · exact absurd h (not_lt.mpr h1)
    · exact absurd h (not_lt.mpr h2)
  obtain ⟨hr, hg, hb⟩ := spectrumRGB_le_one ray.wavelength
  obtain ⟨r0, r1⟩ := gammaChannel_bounds hpow ray.wavelength _ hr
  obtain ⟨g0, g1⟩ := gammaChannel_bounds hpow ray.wavelength _ hg
  obtain ⟨b0, b1⟩ := gammaChannel_bounds hpow ray.wavelength _ hb
  rw [getWavelengthColor_eq pow ray hin]
  exact ⟨⟨rfl, r0, r1, floor_clamp_le _⟩, ⟨rfl, g0, g1, floor_clamp_le _⟩,
    ⟨rfl, b0, b1, floor_clamp_le _⟩⟩

/-- The instance of amended claim C14 for 600 nm and intensity 0.999: the red
channel is the integer part of `clamp(c * 255 * 0.999, 0, 255)` with
`0 <= c <= 1`. -/
theorem colour_channel_truncation_witness :
    (380 : ℝ) ≤ 600 ∧ (600 : ℝ) ≤ 700 ∧
    ((rayColour (600 : ℝ) (999 / 1000)).getWavelengthColor Real.rpow).r = ⌊max 0 (min 255
      (gammaChannel Real.rpow (600 : ℝ) (spectrumRGB (600 : ℝ)).1 * 255 * (999 / 1000)))⌋₊ ∧
    0 ≤ gammaChannel Real.rpow (600 : ℝ) (spectrumRGB (600 : ℝ)).1 ∧
    gammaChannel Real.rpow (600 : ℝ) (spectrumRGB (600 : ℝ)).1 ≤ 1 := by
  have h := (colour_channel_truncation Real.rpow real_powUnit (rayColour (600 : ℝ) (999 / 1000))
    (by norm_num [rayColour]) (by norm_num [rayColour])).1
  exact ⟨by norm_num, by norm_num, h.1, h.2.1, h.2.2.1⟩

/-! ### What a recorded hit looks like -/

/-- A hit is recorded at one of the two roots: the discriminant is not
negative, the accepted parameter is `t1` or `t2`, it exceeds the guard, its
point passes the side test, and the ray after the call is `addHit` there. -/
theorem intersect_hit_cases (sqrt : K → K) (ray : Ray K) (sphere : SphereLens K) (n : K)
    (h : (intersectAndUpdateRay sqrt ray sphere n).1 = true) :
    ¬ discriminant ray sphere < 0 ∧
    ∃ t : K, (t = root1 sqrt ray sphere ∨ t = root2 sqrt ray sphere) ∧ 1 / 10000 < t ∧
      sideOk sphere (ray.pointAt t) ∧
      intersectAndUpdateRay sqrt ray sphere n =
        (true, ray.addHit sqrt (ray.pointAt t) (sphere.getNormalAt sqrt (ray.pointAt t)) n
          (if sphere.isEntrance then sphere.refractiveIndex else 1) t) := by
  rw [intersect_eq] at h ⊢
  by_cases hd : discriminant ray sphere < 0
  · rw [if_pos hd] at h
    exact absurd h (by simp)
  · rw [if_neg hd] at h ⊢
    refine ⟨hd, ?_⟩
    by_cases h1 : 1 / 10000 < root1 sqrt ray sphere ∧
        sideOk sphere (ray.pointAt (root1 sqrt ray sphere))
    · rw [if_pos h1]
      exact ⟨_, Or.inl rfl, h1.1, h1.2, rfl⟩
    · rw [if_neg h1] at h ⊢
      by_cases h2 : 1 / 10000 < root2 sqrt ray sphere ∧
          sideOk sphere (ray.pointAt (root2 sqrt ray sphere))
      · rw [if_pos h2]
        exact ⟨_, Or.inr rfl, h2.1, h2.2, rfl⟩
      · rw [if_neg h2] at h
        exact absurd h (by simp)

/-- A surface that passes the side test somewhere has non-zero radius. -/
theorem sideOk_radius_ne_zero (sphere : SphereLens K) (p : Vec2 K) (h : sideOk sphere p) :
    sphere.radius ≠ 0 := by
  rcases h with ⟨h1, _⟩ | ⟨h1, _⟩
  · exact ne_of_gt h1
  · exact ne_of_lt h1

/-- The parameter of a recorded hit has its point on the lens circle. -/
theorem root_onCircle {sqrt : K → K} (hs : IsSqrt sqrt) (ray : Ray K) (sphere : SphereLens K)
    (hdir : ray.direction ≠ ⟨0, 0⟩) (hd : ¬ discriminant ray sphere < 0) (t : K)
    (ht : t = root1 sqrt ray sphere ∨ t = root2 sqrt ray sphere) :
    dot ((ray.pointAt t).sub sphere.circleCenter) ((ray.pointAt t).sub sphere.circleCenter)
      = sphere.radius * sphere.radius :=
  (onCircle_iff hs ray sphere hdir hd t).2 ht

/-- Claim C19: for a ray with non-zero direction and every surface, whenever
`intersectAndUpdateRay` returns true the appended hit point `p` satisfies
`|p - (center + (radius, 0))|^2 = radius^2`, and `p` differs from that circle
centre (the vector that `getNormalAt` normalizes is not zero). -/
theorem hit_on_circle (sqrt : K → K) (hs : IsSqrt sqrt) (ray : Ray K) (sphere : SphereLens K)
    (n : K) (hdir : ray.direction ≠ ⟨0, 0⟩)
    (h : (intersectAndUpdateRay sqrt ray sphere n).1 = true) :
    ∃ p : Vec2 K,
      (intersectAndUpdateRay sqrt ray sphere n).2.path = ray.path ++ [p] ∧
      dot (p.sub sphere.circleCenter) (p.sub sphere.circleCenter)
        = sphere.radius * sphere.radius ∧
      p ≠ sphere.circleCenter := by
  obtain ⟨hd, t, ht, _, hside, hres⟩ := intersect_hit_cases sqrt ray sphere n h
  have hon := root_onCircle hs ray sphere hdir hd t ht
  refine ⟨ray.pointAt t, ?_, hon, ?_⟩
  · rw [hres]; rfl
  · intro hp
    rw [hp] at hon
    have hr := sideOk_radius_ne_zero sphere _ hside
    have h0 : sphere.radius * sphere.radius = 0 := by
      rw [← hon]
      simp [dot, Vec2.sub]
    exact hr (mul_self_eq_zero.mp h0)

/-- The instance of claim C19 for the ray from (-5,0) along (1,0) and
`lensConvex`. -/
theorem hit_on_circle_witness :
    (rayAlongX ⟨-5, 0⟩ : Ray ℝ).direction ≠ ⟨0, 0⟩ ∧
    (intersectAndUpdateRay Real.sqrt (rayAlongX ⟨-5, 0⟩ : Ray ℝ) lensConvex 1).1 = true ∧
    ∃ p : Vec2 ℝ,
      (intersectAndUpdateRay Real.sqrt (rayAlongX ⟨-5, 0⟩ : Ray ℝ) lensConvex 1).2.path
        = (rayAlongX ⟨-5, 0⟩ : Ray ℝ).path ++ [p] ∧
      dot (p.sub (lensConvex : SphereLens ℝ).circleCenter)
          (p.sub (lensConvex : SphereLens ℝ).circleCenter)
        = (lensConvex : SphereLens ℝ).radius * (lensConvex : SphereLens ℝ).radius ∧
      p ≠ (lensConvex : SphereLens ℝ).circleCenter := by
  have hdir : (rayAlongX ⟨-5, 0⟩ : Ray ℝ).direction ≠ ⟨0, 0⟩ := by
    intro h
    have hx := congrArg Vec2.x h
    simp [rayAlongX] at hx
  have h : (intersectAndUpdateRay Real.sqrt (rayAlongX ⟨-5, 0⟩ : Ray ℝ) lensConvex 1).1 = true := by
    rw [intersect_axis real_isSqrt (5 : ℝ) 1, if_pos (by norm_num)]
  exact ⟨hdir, h,
    hit_on_circle Real.sqrt real_isSqrt (rayAlongX ⟨-5, 0⟩ : Ray ℝ) lensConvex 1 hdir h⟩

/-- Claim C18: for a ray with unit direction and every surface, whenever
`intersectAndUpdateRay` returns true, the distance field of the appended hit
record equals the Euclidean distance between the ray's previous last path
vertex (`getOrigin()` before the call) and the hit point, and is greater than
0.0001. -/
theorem hit_distance (sqrt : K → K) (hs : IsSqrt sqrt) (ray : Ray K) (sphere : SphereLens K)
    (n : K) (hunit : dot ray.direction ray.direction = 1)
    (h : (intersectAndUpdateRay sqrt ray sphere n).1 = true) :
    ∃ hit : RayHit K,
      (intersectAndUpdateRay sqrt ray sphere n).2.hits = ray.hits ++ [hit] ∧
      hit.distance = length sqrt (hit.point.sub ray.getOrigin) ∧
      1 / 10000 < hit.distance := by
  obtain ⟨_, t, _, hpos, _, hres⟩ := intersect_hit_cases sqrt ray sphere n h
  have hnot : ¬ t < 1 / 10000 := not_lt.mpr (le_of_lt hpos)
  have ht0 : 0 ≤ t := le_trans (by norm_num) (le_of_lt hpos)
  have hlen : length sqrt ((ray.pointAt t).sub ray.getOrigin) = t := by
    have hdx : ray.direction.x * ray.direction.x + ray.direction.y * ray.direction.y = 1 :=
      hunit
    have e : dot ((ray.pointAt t).sub ray.getOrigin) ((ray.pointAt t).sub ray.getOrigin)
        = t * t := by
      simp only [Ray.pointAt, dot, Vec2.sub, Vec2.add, Vec2.smul]
      linear_combination (t * t) * hdx
    unfold length
    rw [e]
    exact isSqrt_sq hs ht0
  rw [hres]
  refine ⟨_, rfl, ?_, ?_⟩
  · show (if t < 1 / 10000 then length sqrt ((ray.pointAt t).sub ray.getOrigin) else t)
      = length sqrt ((ray.pointAt t).sub ray.getOrigin)
    rw [if_neg hnot, hlen]
  · show 1 / 10000 < (if t < 1 / 10000 then length sqrt ((ray.pointAt t).sub ray.getOrigin)
      else t)
    rw [if_neg hnot]
    exact hpos

/-- The instance of claim C18 for the ray from (-5,0) along (1,0) and
`lensConvex`: the recorded distance is the length of the segment from (-5,0)
to the hit point. -/
theorem hit_distance_witness :
    dot (rayAlongX ⟨-5, 0⟩ : Ray ℝ).direction (rayAlongX ⟨-5, 0⟩ : Ray ℝ).direction = 1 ∧
    (intersectAndUpdateRay Real.sqrt (rayAlongX ⟨-5, 0⟩ : Ray ℝ) lensConvex 1).1 = true ∧
    ∃ hit : RayHit ℝ,
      (intersectAndUpdateRay Real.sqrt (rayAlongX ⟨-5, 0⟩ : Ray ℝ) lensConvex 1).2.hits
        = (rayAlongX ⟨-5, 0⟩ : Ray ℝ).hits ++ [hit] ∧
      hit.distance = length Real.sqrt (hit.point.sub (rayAlongX ⟨-5, 0⟩ : Ray ℝ).getOrigin) ∧
      1 / 10000 < hit.distance := by
  have hunit : dot (rayAlongX ⟨-5, 0⟩ : Ray ℝ).direction
      (rayAlongX ⟨-5, 0⟩ : Ray ℝ).direction = 1 := by
    norm_num [rayAlongX, dot]
  have h : (intersectAndUpdateRay Real.sqrt (rayAlongX ⟨-5, 0⟩ : Ray ℝ) lensConvex 1).1 = true := by
    rw [intersect_axis real_isSqrt (5 : ℝ) 1, if_pos (by norm_num)]
  exact ⟨hunit, h,
    hit_distance Real.sqrt real_isSqrt (rayAlongX ⟨-5, 0⟩ : Ray ℝ) lensConvex 1 hunit h⟩

/-! ### The direction stays a unit vector -/

/-- The hit recorded on `rayAtApex` comes from `intersectAndUpdateRay`. -/
theorem rayAtApex_recorded {sqrt : K → K} (hs : IsSqrt sqrt) :
    ∀ h ∈ (rayAtApex : Ray K).hits, RecordedHit sqrt h := by
  intro h hmem
  have e : h = ⟨⟨0, 0⟩, ⟨-1, 0⟩, 5, 1, 3 / 2⟩ := List.mem_singleton.mp hmem
  have hres := intersect_axis hs (5 : K) 1
  rw [if_pos (by norm_num)] at hres
  refine ⟨rayAlongX ⟨-5, 0⟩, lensConvex, 1, ?_, ?_, ?_⟩
  · simp only [lensConvex]; norm_num
  · rw [hres]
  · rw [hres, e]; rfl

/-- On a hit, one step of the trace loop leaves the ray returned by
`refractRay` and carries the wavelength-adjusted index (entrance) or 1.0
(exit). -/
theorem traceSurface_hit (sqrt : K → K) (st : Ray K × K) (l : SphereLens K)
    (h : (intersectAndUpdateRay sqrt st.1 l st.2).1 = true) :
    traceSurface sqrt st l =
      ((refractRay sqrt (intersectAndUpdateRay sqrt st.1 l st.2).2 l).2,
       if l.isEntrance then l.getRefractiveIndexAtWavelength st.1.wavelength else 1) := by
  have hw : (refractRay sqrt (intersectAndUpdateRay sqrt st.1 l st.2).2 l).2.wavelength
      = st.1.wavelength := by
    rw [(refract_frame sqrt _ l).2.2.1, intersect_wavelength]
  unfold traceSurface
  simp only [h, if_true, hw]
  split_ifs <;> rfl

/-- The flag returned by `intersectAndUpdateRay` depends on the surface only
through its centre and radius. -/
theorem intersect_flag_congr (sqrt : K → K) (ray : Ray K) (l1 l2 : SphereLens K) (n1 n2 : K)
    (hc : l1.center = l2.center) (hr : l1.radius = l2.radius) :
    (intersectAndUpdateRay sqrt ray l1 n1).1 = (intersectAndUpdateRay sqrt ray l2 n2).1 := by
  have hD : discriminant ray l1 = discriminant ray l2 := by
    simp only [discriminant, quadB, quadC, hc, hr]
  have h1 : root1 sqrt ray l1 = root1 sqrt ray l2 := by
    unfold root1
    rw [hD]
    simp only [quadB, hc, hr]
  have h2 : root2 sqrt ray l1 = root2 sqrt ray l2 := by
    unfold root2
    rw [hD]
    simp only [quadB, hc, hr]
  have hS : ∀ p, sideOk l1 p ↔ sideOk l2 p := by
    intro p
    simp only [sideOk, hc, hr]
  rw [intersect_eq, intersect_eq, hD, h1, h2]
  by_cases hd : discriminant ray l2 < 0
  · rw [if_pos hd, if_pos hd]
  · rw [if_neg hd, if_neg hd]
    by_cases c1 : 1 / 10000 < root1 sqrt ray l2 ∧ sideOk l2 (ray.pointAt (root1 sqrt ray l2))
    · rw [if_pos c1, if_pos ⟨c1.1, (hS _).2 c1.2⟩]
    · rw [if_neg c1, if_neg (fun hh => c1 ⟨hh.1, (hS _).1 hh.2⟩)]
      by_cases c2 : 1 / 10000 < root2 sqrt ray l2 ∧ sideOk l2 (ray.pointAt (root2 sqrt ray l2))
      · rw [if_pos c2, if_pos ⟨c2.1, (hS _).2 c2.2⟩]
      · rw [if_neg c2, if_neg (fun hh => c2 ⟨hh.1, (hS _).1 hh.2⟩)]

/-- The ray from (-5,0) along (1,0) hits `lensDispersive`. -/
theorem intersect_dispersive {sqrt : K → K} (hs : IsSqrt sqrt) :
    (intersectAndUpdateRay sqrt (rayAlongX (⟨-5, 0⟩ : Vec2 K)) lensDispersive 1).1 = true := by
  rw [intersect_flag_congr sqrt _ lensDispersive lensConvex 1 1 rfl rfl,
    intersect_axis hs (5 : K) 1, if_pos (by norm_num)]

/-- Claim C11 as stated fails: the ray from (-5,0) along (1,0) at 550 nm hits
the entrance surface `lensDispersive` (index field 1.5, B = 0.003025), and the
index carried to the next surface is 1.51, not the index field 1.5. -/
theorem carried_index_not_base_index :
    (intersectAndUpdateRay Real.sqrt (rayAlongX ⟨-5, 0⟩ : Ray ℝ) lensDispersive 1).1 = true ∧
    (lensDispersive : SphereLens ℝ).isEntrance = true ∧
    (traceSurface Real.sqrt ((rayAlongX ⟨-5, 0⟩ : Ray ℝ), 1) lensDispersive).2 = 151 / 100 ∧
    (traceSurface Real.sqrt ((rayAlongX ⟨-5, 0⟩ : Ray ℝ), 1) lensDispersive).2
      ≠ (lensDispersive : SphereLens ℝ).refractiveIndex := by
  have hhit := intersect_dispersive (K := ℝ) real_isSqrt
  have hval : (traceSurface Real.sqrt ((rayAlongX ⟨-5, 0⟩ : Ray ℝ), 1) lensDispersive).2
      = 151 / 100 := by
    rw [traceSurface_hit Real.sqrt ((rayAlongX ⟨-5, 0⟩ : Ray ℝ), 1) lensDispersive hhit]
    norm_num [lensDispersive, rayAlongX, SphereLens.getRefractiveIndexAtWavelength]
  refine ⟨hhit, rfl, hval, ?_⟩
  rw [hval]
  norm_num [lensDispersive]

/-- Claim C11, amended: for every state of the trace loop and every lens on
which `intersectAndUpdateRay` reports a hit, the `refractiveIndexBefore` used
for the next surface is the surface's wavelength-adjusted index
`getRefractiveIndexAtWavelength(ray.wavelength)` if the surface `isEntrance`
(its `refractiveIndex` field when `B = 0` or the wavelength is not positive),
and 1.0 otherwise. -/
theorem trace_carried_index (sqrt : K → K) (st : Ray K × K) (l : SphereLens K)
    (h : (intersectAndUpdateRay sqrt st.1 l st.2).1 = true) :
    (l.isEntrance = true →
      (traceSurface sqrt st l).2 = l.getRefractiveIndexAtWavelength st.1.wavelength) ∧
    (l.isEntrance = true → (l.dispersiveCoefficient = 0 ∨ st.1.wavelength ≤ 0) →
      (traceSurface sqrt st l).2 = l.refractiveIndex) ∧
    (l.isEntrance = false → (traceSurface sqrt st l).2 = 1) := by
  rw [traceSurface_hit sqrt st l h]
  refine ⟨?_, ?_, ?_⟩
  · intro he
    simp only [he, if_true]
  · intro he hB
    simp only [he, if_true]
    unfold SphereLens.getRefractiveIndexAtWavelength
    rcases hB with hB | hw
    · by_cases hw : st.1.wavelength ≤ 0
      · rw [if_pos hw]
      · rw [if_neg hw, hB]
        simp only [zero_div, add_zero]
    · rw [if_pos hw]
  · intro he
    simp only [he, Bool.false_eq_true, if_false]

/-- The instances of amended claim C11: after the hit on `lensDispersive` the
carried index is its index at 550 nm; after the hit on `lensConvex` (B = 0) it
is the index field 1.5; after the hit of `rayInDense` on the exit surface
`lensTilted` it is 1.0. -/
theorem trace_carried_index_witness :
    (traceSurface Real.sqrt ((rayAlongX ⟨-5, 0⟩ : Ray ℝ), 1) lensDispersive).2
      = (lensDispersive : SphereLens ℝ).getRefractiveIndexAtWavelength 550 ∧
    (traceSurface Real.sqrt ((rayAlongX ⟨-5, 0⟩ : Ray ℝ), 1) lensConvex).2 = 3 / 2 ∧
    (traceSurface Real.sqrt ((rayInDense : Ray ℝ), 2) lensTilted).2 = 1 := by
  have hA : (intersectAndUpdateRay Real.sqrt (rayAlongX ⟨-5, 0⟩ : Ray ℝ) lensConvex 1).1
      = true := by
    rw [intersect_axis real_isSqrt (5 : ℝ) 1, if_pos (by norm_num)]
  have hT : (intersectAndUpdateRay Real.sqrt (rayInDense : Ray ℝ) lensTilted 2).1 = true := by
    rw [intersect_tilted real_isSqrt]
  exact ⟨(trace_carried_index Real.sqrt ((rayAlongX ⟨-5, 0⟩ : Ray ℝ), 1) lensDispersive
      (intersect_dispersive real_isSqrt)).1 rfl,
    (trace_carried_index Real.sqrt ((rayAlongX ⟨-5, 0⟩ : Ray ℝ), 1) lensConvex hA).2.1 rfl
      (Or.inl rfl),
    (trace_carried_index Real.sqrt ((rayInDense : Ray ℝ), 2) lensTilted hT).2.2 rfl⟩

/-! ### Fresnel reflectance as a fraction -/

/-- The function `fresnelReflectance` in terms of its locals: 1 on total
internal reflection, otherwise the mean of the squares of the two quotients
`rs` and `rp`. -/
theorem fresnel_eq (sqrt : K → K) (incident normal : Vec2 K) (n1 n2 : K) :
    fresnelReflectance sqrt incident normal n1 n2 =
      if 1 < fresnelSinT2 incident normal n1 n2 then 1
      else
        (fresnelNumS sqrt incident normal n1 n2 / fresnelDenomS sqrt incident normal n1 n2
            * (fresnelNumS sqrt incident normal n1 n2
              / fresnelDenomS sqrt incident normal n1 n2)
          + fresnelNumP sqrt incident normal n1 n2 / fresnelDenomP sqrt incident normal n1 n2
            * (fresnelNumP sqrt incident normal n1 n2
              / fresnelDenomP sqrt incident normal n1 n2)) * (1 / 2) := rfl

/-- The square of a quotient `(a - b) / (a + b)` of non-negative numbers is at
most 1. -/
theorem quotient_sq_le_one (a b : K) (ha : 0 ≤ a) (hb : 0 ≤ b) :
    (a - b) / (a + b) * ((a - b) / (a + b)) ≤ 1 := by
  by_cases h0 : a + b = 0
  · rw [h0, div_zero, mul_zero]
    exact zero_le_one
  · have hpos : 0 < a + b := lt_of_le_of_ne (add_nonneg ha hb) (Ne.symm h0)
    rw [div_mul_div_comm, div_le_one (mul_pos hpos hpos)]
    nlinarith [mul_nonneg ha hb]

/-- The square of `cosI = |dot|` is the square of the dot product. -/
theorem fresnelCosI_sq (incident normal : Vec2 K) :
    fresnelCosI incident normal * fresnelCosI incident normal = dot incident normal ^ 2 := by
  unfold fresnelCosI
  rw [abs_mul_abs_self, pow_two]

/-- The `sinT2` of `fresnelReflectance` is `(n1/n2)^2 * (1 - dot^2)`. -/
theorem fresnelSinT2_eq (incident normal : Vec2 K) (n1 n2 : K) :
    fresnelSinT2 incident normal n1 n2 = (n1 / n2) ^ 2 * (1 - dot incident normal ^ 2) := by
  unfold fresnelSinT2
  rw [fresnelCosI_sq]
  ring

/-- Without total internal reflection and with positive indices, a divisor of
`rs` or `rp` can vanish only when the incident direction is perpendicular to
the normal and the two indices are equal. -/
theorem fresnel_divisors_ne_zero {sqrt : K → K} (hs : IsSqrt sqrt) (incident normal : Vec2 K)
    (n1 n2 : K) (hn1 : 0 < n1) (hn2 : 0 < n2)
    (hdef : ¬ (dot incident normal = 0 ∧ n1 = n2))
    (hno : ¬ 1 < fresnelSinT2 incident normal n1 n2) :
    fresnelDenomS sqrt incident normal n1 n2 ≠ 0 ∧
    fresnelDenomP sqrt incident normal n1 n2 ≠ 0 := by
  have hI : 0 ≤ fresnelCosI incident normal := abs_nonneg _
  obtain ⟨hT, hTT⟩ := hs (1 - fresnelSinT2 incident normal n1 n2) (by
    have := not_lt.mp hno; linarith)
  have key : fresnelCosI incident normal = 0 →
      sqrt (1 - fresnelSinT2 incident normal n1 n2) = 0 → False := by
    intro h1 h2
    have hdot : dot incident normal = 0 := abs_eq_zero.mp h1
    rw [h2, mul_zero] at hTT
    have hsin : fresnelSinT2 incident normal n1 n2 = 1 := by linarith
    rw [fresnelSinT2_eq, hdot] at hsin
    have hq : 0 < n1 / n2 := div_pos hn1 hn2
    have hq1 : n1 / n2 = 1 := by nlinarith
    exact hdef ⟨hdot, (div_eq_one_iff_eq (ne_of_gt hn2)).mp hq1⟩
  have hA : 0 ≤ n1 * fresnelCosI incident normal := mul_nonneg (le_of_lt hn1) hI
  have hB : 0 ≤ n2 * sqrt (1 - fresnelSinT2 incident normal n1 n2) :=
    mul_nonneg (le_of_lt hn2) hT
  have hC : 0 ≤ n1 * sqrt (1 - fresnelSinT2 incident normal n1 n2) :=
    mul_nonneg (le_of_lt hn1) hT
  have hD : 0 ≤ n2 * fresnelCosI incident normal := mul_nonneg (le_of_lt hn2) hI
  constructor
  · intro h0
    unfold fresnelDenomS fresnelCosT at h0
    have e1 : n1 * fresnelCosI incident normal = 0 := by linarith
    have e2 : n2 * sqrt (1 - fresnelSinT2 incident normal n1 n2) = 0 := by linarith
    exact key ((mul_eq_zero.mp e1).resolve_left (ne_of_gt hn1))
      ((mul_eq_zero.mp e2).resolve_left (ne_of_gt hn2))
  · intro h0
    unfold fresnelDenomP fresnelCosT at h0
    have e1 : n1 * sqrt (1 - fresnelSinT2 incident normal n1 n2) = 0 := by linarith
    have e2 : n2 * fresnelCosI incident normal = 0 := by linarith
    exact key ((mul_eq_zero.mp e2).resolve_left (ne_of_gt hn2))
      ((mul_eq_zero.mp e1).resolve_left (ne_of_gt hn1))

/-- Away from the zero-divisor input (incident direction perpendicular to the
normal with equal indices), `fresnelReflectance` with positive indices divides
by non-zero numbers only and returns a value in [0, 1], and it returns 1
whenever `(n1/n2)^2 * (1 - dot^2) > 1`. -/
theorem fresnel_fraction_defined {sqrt : K → K} (hs : IsSqrt sqrt) (incident normal : Vec2 K)
    (n1 n2 : K) (hn1 : 0 < n1) (hn2 : 0 < n2)
    (hdef : ¬ (dot incident normal = 0 ∧ n1 = n2)) :
    (¬ 1 < fresnelSinT2 incident normal n1 n2 →
      fresnelDenomS sqrt incident normal n1 n2 ≠ 0 ∧
      fresnelDenomP sqrt incident normal n1 n2 ≠ 0) ∧
    0 ≤ fresnelReflectance sqrt incident normal n1 n2 ∧
    fresnelReflectance sqrt incident normal n1 n2 ≤ 1 ∧
    (1 < (n1 / n2) ^ 2 * (1 - dot incident normal ^ 2) →
      fresnelReflectance sqrt incident normal n1 n2 = 1) := by
  refine ⟨fresnel_divisors_ne_zero hs incident normal n1 n2 hn1 hn2 hdef, ?_, ?_, ?_⟩
  · rw [fresnel_eq]
    split_ifs
    · exact zero_le_one
    · exact mul_nonneg (add_nonneg (mul_self_nonneg _) (mul_self_nonneg _)) (by norm_num)
  · rw [fresnel_eq]
    split_ifs with hsin
    · exact le_refl 1
    · have hI : 0 ≤ fresnelCosI incident normal := abs_nonneg _
      have hT : 0 ≤ fresnelCosT sqrt incident normal n1 n2 :=
        (hs (1 - fresnelSinT2 incident normal n1 n2) (by
          have := not_lt.mp hsin; linarith)).1
      have h1 := quotient_sq_le_one (n1 * fresnelCosI incident normal)
        (n2 * fresnelCosT sqrt incident normal n1 n2)
        (mul_nonneg (le_of_lt hn1) hI) (mul_nonneg (le_of_lt hn2) hT)
      have h2 := quotient_sq_le_one (n1 * fresnelCosT sqrt incident normal n1 n2)
        (n2 * fresnelCosI incident normal)
        (mul_nonneg (le_of_lt hn1) hT) (mul_nonneg (le_of_lt hn2) hI)
      unfold fresnelNumS fresnelDenomS fresnelNumP fresnelDenomP
      linarith
  · intro h
    rw [fresnel_eq, if_pos (by rw [fresnelSinT2_eq]; exact h)]

/-- Claim C21 fails on the code at incident = (0,1), normal = (1,0),
`n1 = n2 = 1.0`: both vectors are unit vectors and both indices are positive,
`sinT2 = 1` is not above 1, so there is no early return, and `cosI = 0`,
`cosT = 0` make the dividend and the divisor of `rs` and of `rp` all zero:
`fresnelReflectance` divides 0 by 0 there and returns no number in [0, 1]. -/
theorem fresnel_grazing_zero_divisor :
    dot (⟨0, 1⟩ : Vec2 ℝ) ⟨0, 1⟩ = 1 ∧ dot (⟨1, 0⟩ : Vec2 ℝ) ⟨1, 0⟩ = 1 ∧
    ¬ 1 < fresnelSinT2 (⟨0, 1⟩ : Vec2 ℝ) ⟨1, 0⟩ 1 1 ∧
    fresnelNumS Real.sqrt (⟨0, 1⟩ : Vec2 ℝ) ⟨1, 0⟩ 1 1 = 0 ∧
    fresnelDenomS Real.sqrt (⟨0, 1⟩ : Vec2 ℝ) ⟨1, 0⟩ 1 1 = 0 ∧
    fresnelNumP Real.sqrt (⟨0, 1⟩ : Vec2 ℝ) ⟨1, 0⟩ 1 1 = 0 ∧
    fresnelDenomP Real.sqrt (⟨0, 1⟩ : Vec2 ℝ) ⟨1, 0⟩ 1 1 = 0 := by
  have hI : fresnelCosI (⟨0, 1⟩ : Vec2 ℝ) ⟨1, 0⟩ = 0 := by
    norm_num [fresnelCosI, dot]
  have hS : fresnelSinT2 (⟨0, 1⟩ : Vec2 ℝ) ⟨1, 0⟩ 1 1 = 1 := by
    unfold fresnelSinT2
    rw [hI]
    norm_num
  have hT : fresnelCosT Real.sqrt (⟨0, 1⟩ : Vec2 ℝ) ⟨1, 0⟩ 1 1 = 0 := by
    unfold fresnelCosT
    rw [hS, sub_self]
    exact Real.sqrt_zero
  refine ⟨by norm_num [dot], by norm_num [dot], ?_, ?_, ?_, ?_, ?_⟩
  · rw [hS]; exact lt_irrefl 1
  · unfold fresnelNumS; rw [hI, hT]; norm_num
  · unfold fresnelDenomS; rw [hI, hT]; norm_num
  · unfold fresnelNumP; rw [hI, hT]; norm_num
  · unfold fresnelDenomP; rw [hI, hT]; norm_num

/-! ### The luminosity factor that is applied -/

/-- The luminosity factor takes the values 0.3, 0.8 and 1 only. -/
theorem luminosityFactor_values (w : K) :
    luminosityFactor w = 3 / 10 ∨ luminosityFactor w = 8 / 10 ∨ luminosityFactor w = 1 := by
  unfold luminosityFactor
  by_cases h1 : w < 420 ∨ w > 700
  · rw [if_pos h1]; exact Or.inl rfl
  · rw [if_neg h1]
    by_cases h2 : w > 645
    · rw [if_pos h2]; exact Or.inr (Or.inl rfl)
    · rw [if_neg h2, if_neg (fun h => h1 (Or.inl h))]
      exact Or.inr (Or.inr rfl)

/-- Claim C22: for a ray whose wavelength `w` lies in [380, 700], every channel
of `getWavelengthColor` is `pow(max(0, c), 1/0.8)` multiplied by a factor that
is 0.3 if `w < 420`, 0.8 if `w > 645`, and 1.0 otherwise; the condition under
which the branch assigning 0.4 would run (`w < 420` after `w < 420 || w > 700`
and `w > 645` both failed) never holds, and the factor is 0.4 for no
wavelength. -/
theorem luminosity_factor_applied [FloorRing K] (pow : K → K → K) (ray : Ray K)
    (h1 : 380 ≤ ray.wavelength) (h2 : ray.wavelength ≤ 700) :
    ray.getWavelengthColor pow =
      ⟨⌊max 0 (min 255
          (pow (max 0 (spectrumRGB ray.wavelength).1) (1 / (8 / 10))
            * luminosityFactor ray.wavelength * 255 * ray.intensity))⌋₊,
       ⌊max 0 (min 255
          (pow (max 0 (spectrumRGB ray.wavelength).2.1) (1 / (8 / 10))
            * luminosityFactor ray.wavelength * 255 * ray.intensity))⌋₊,
       ⌊max 0 (min 255
          (pow (max 0 (spectrumRGB ray.wavelength).2.2) (1 / (8 / 10))
            * luminosityFactor ray.wavelength * 255 * ray.intensity))⌋₊⟩ ∧
    (ray.wavelength < 420 → luminosityFactor ray.wavelength = 3 / 10) ∧
    (ray.wavelength > 645 → luminosityFactor ray.wavelength = 8 / 10) ∧
    (420 ≤ ray.wavelength → ray.wavelength ≤ 645 → luminosityFactor ray.wavelength = 1) ∧
    (∀ w : K, ¬ (¬ (w < 420 ∨ w > 700) ∧ ¬ (w > 645) ∧ w < 420)) ∧
    (∀ w : K, luminosityFactor w ≠ 4 / 10) := by
  have hin : ¬ (ray.wavelength < 380 ∨ ray.wavelength > 700) := by
    rintro (h | h)
    · exact absurd h (not_lt.mpr h1)
    · exact absurd h (not_lt.mpr h2)
  refine ⟨?_, ?_, ?_, ?_, ?_, ?_⟩
  · rw [getWavelengthColor_eq pow ray hin]
    rfl
  · intro h
    unfold luminosityFactor
    rw [if_pos (Or.inl h)]
  · intro h
    unfold luminosityFactor
    rw [if_neg (fun hh => hh.elim (fun a => absurd a (not_lt.mpr (by linarith)))
      (fun a => absurd a (not_lt.mpr h2))), if_pos h]
  · intro ha hb
    unfold luminosityFactor
    rw [if_neg (fun hh => hh.elim (fun a => absurd a (not_lt.mpr ha))
      (fun a => absurd a (not_lt.mpr h2))), if_neg (not_lt.mpr hb), if_neg (not_lt.mpr ha)]
  · intro w hw
    exact hw.1 (Or.inl hw.2.2)
  · intro w hw
    rcases luminosityFactor_values w with h | h | h <;> rw [h] at hw <;> norm_num at hw

/-- The instances of claim C22 at 400 nm (factor 0.3), 650 nm (factor 0.8) and
550 nm (factor 1.0). -/
theorem luminosity_factor_applied_witness :
    luminosityFactor (400 : ℝ) = 3 / 10 ∧
    luminosityFactor (650 : ℝ) = 8 / 10 ∧
    luminosityFactor (550 : ℝ) = 1 :=
  ⟨(luminosity_factor_applied Real.rpow (rayColour (400 : ℝ) 1)
      (by norm_num [rayColour]) (by norm_num [rayColour])).2.1 (by norm_num [rayColour]),
   (luminosity_factor_applied Real.rpow (rayColour (650 : ℝ) 1)
      (by norm_num [rayColour]) (by norm_num [rayColour])).2.2.1 (by norm_num [rayColour]),
   (luminosity_factor_applied Real.rpow (rayColour (550 : ℝ) 1)
      (by norm_num [rayColour]) (by norm_num [rayColour])).2.2.2.1
      (by norm_num [rayColour]) (by norm_num [rayColour])⟩

end Optics

namespace Optics

/-! ### Concatenation of collections -/

/-- Claim C17: after `a += b` the rays of `a` are the old rays of `a` followed by
the rays of `b`, and the lenses of `a` are the old lenses of `a` followed by the
lenses of `b`; both lengths add (the right operand is a value and is not
changed). -/
theorem plusAssign_concat {K : Type} (a b : OpticsData K) :
    (a.plusAssign b).rays = a.rays ++ b.rays ∧
    (a.plusAssign b).lenses = a.lenses ++ b.lenses ∧
    (a.plusAssign b).rays.length = a.rays.length + b.rays.length ∧
    (a.plusAssign b).lenses.length = a.lenses.length + b.lenses.length := by
  refine ⟨rfl, rfl, ?_, ?_⟩
  · show (a.rays ++ b.rays).length = _
    exact List.length_append _ _
  · show (a.lenses ++ b.lenses).length = _
    exact List.length_append _ _

end Optics
